import Mathlib

/-!
# grpc_mock: the typed cell-value model of `src/main.cpp`

A shallow embedding of the data model (`CellValue`, `ColumnDef`, `Row`, `Table`,
`DataStore`), of the single mutating operation `DataStore::updateCell`, and of the
encode / decode functions of the two wire formats (`valueToJson`,
`parseJsonValueForColumn`, `toProtoValue`, `parseProtoValueForColumn`), of the
encoders of the read path (`buildSchemaJson`, `buildRowsJson`, `fillProtoSchema`) and
of the handlers that update a cell or look a table up on the two surfaces.

Conventions of the embedding:

* `std::string` is `String`; `std::map<std::string, V>` is an association list whose
  entries are kept in ascending key order (`StdMap`).
* `int` is an `Int` in the range `[-2^31, 2^31)`, `int64_t` an `Int` in
  `[-2^63, 2^63)`; the narrowing `static_cast<int>(int64_t)` wraps modulo `2^32`.
* `double` is `Double` below: a finite value is carried as the rational number it
  denotes, next to the two infinities and NaN.
* An out-parameter `std::string& error_message` is passed in and returned.
-/

namespace GrpcMock

/-! ## Machine numbers -/

/-- The value of `static_cast<int>(n)` for a 64-bit integer `n`: reduction modulo
`2^32` into the range `[-2^31, 2^31)`. -/
def wrapInt32 (n : Int) : Int :=
  (n + 2147483648) % 4294967296 - 2147483648

/-- Range of the C++ type `int`. -/
def inInt32 (n : Int) : Prop :=
  -2147483648 ≤ n ∧ n < 2147483648

instance (n : Int) : Decidable (inInt32 n) := by
  unfold inInt32; exact inferInstance

/-- Range of the C++ type `int64_t`. -/
def inInt64 (n : Int) : Prop :=
  -9223372036854775808 ≤ n ∧ n < 9223372036854775808

instance (n : Int) : Decidable (inInt64 n) := by
  unfold inInt64; exact inferInstance

/-- A C++ `double` as this program observes it. A finite value is represented by the
rational number it denotes (so the type also has finite inhabitants that no binary64
value denotes: statements quantified over `Double` cover every real `double`, and
concrete inputs are chosen among the representable ones); `-0.0` and `0.0` are both
`finite 0`, which `operator==` and the conversions used here do not tell apart. -/
inductive Double where
  | finite (q : ℚ)
  | inf (negative : Bool)
  | nan
  deriving DecidableEq

namespace Double

/-- The function `std::floor` on `double`. -/
def floor : Double → Double
  | finite q => finite (⌊q⌋ : Int)
  | inf s => inf s
  | nan => nan

/-- The comparison `operator==` on `double`: NaN compares unequal to everything. -/
def eq : Double → Double → Bool
  | nan, _ => false
  | _, nan => false
  | a, b => decide (a = b)

/-- The conversion `static_cast<int>(d)`: truncation toward zero. The behaviour is
undefined (`none`) when the truncated value does not fit in `int`, and for the
infinities and NaN. -/
def toInt : Double → Option Int
  | finite q =>
    let t : Int := if 0 ≤ q then ⌊q⌋ else ⌈q⌉
    if inInt32 t then some t else none
  | inf _ => none
  | nan => none

/-- The conversion `static_cast<double>(i)` of an `int`: always exact. -/
def ofInt (i : Int) : Double :=
  finite i

/-- Search for the least `s' ≥ s` with `n < 2^(53 + s')`, giving up after `fuel` steps. -/
def lostBitsFrom (n s : Nat) : Nat → Nat
  | 0 => s
  | fuel + 1 => if n < 2 ^ (53 + s) then s else lostBitsFrom n (s + 1) fuel

/-- Number of low bits a natural number below `2^64` loses when it is rounded to the
53-bit significand of a binary64 value. -/
def lostBits (n : Nat) : Nat :=
  lostBitsFrom n 0 11

/-- Rounding of a natural number below `2^64` to the nearest binary64 value, ties to
the even significand. -/
def roundNat (n : Nat) : Nat :=
  let s := lostBits n
  let q := n / 2 ^ s
  let r := n % 2 ^ s
  let up : Bool := decide (2 ^ s < 2 * r) || (decide (2 * r = 2 ^ s) && decide (q % 2 = 1))
  (if up then q + 1 else q) * 2 ^ s

/-- The conversion `static_cast<double>(n)` of an `int64_t`: the nearest binary64
value (round to nearest, ties to even), exact when `|n| ≤ 2^53`. -/
def ofInt64 (n : Int) : Double :=
  if 0 ≤ n then finite ((roundNat n.natAbs : Nat) : Int)
  else finite (-((roundNat n.natAbs : Nat) : Int))

end Double

/-! ## `std::map<std::string, V>` -/

/-- Lexicographic comparison of two character sequences by code point. -/
def charsLess : List Char → List Char → Bool
  | [], [] => false
  | [], _ :: _ => true
  | _ :: _, [] => false
  | x :: xs, y :: ys =>
    if x.toNat < y.toNat then true
    else if y.toNat < x.toNat then false
    else charsLess xs ys

/-- The comparison `operator<` of `std::string`, the key order of the maps: the
lexicographic order of the bytes, which for UTF-8 text is the lexicographic order of
the code points. -/
def stringLess (a b : String) : Bool :=
  charsLess a.data b.data

/-- A `std::map<std::string, V>`: its entries in ascending key order. -/
abbrev StdMap (V : Type) := List (String × V)

namespace StdMap

variable {V : Type}

/-- Lookup `m.find(k)`: the mapped value, `none` for `m.end()`. -/
def find : StdMap V → String → Option V
  | [], _ => none
  | (k', v) :: m, k => if k' = k then some v else find m k

/-- The assignment `m[k] = v`: overwrites the value of an existing key, inserts the
key at its place in the order otherwise. -/
def assign : StdMap V → String → V → StdMap V
  | [], k, v => [(k, v)]
  | (k', v') :: m, k, v =>
    if k' = k then (k', v) :: m
    else if stringLess k k' then (k, v) :: (k', v') :: m
    else (k', v') :: assign m k v

/-- The insertion `m.insert({k, v})`: leaves an existing key as it is. -/
def insert : StdMap V → String → V → StdMap V
  | [], k, v => [(k, v)]
  | (k', v') :: m, k, v =>
    if k' = k then (k', v') :: m
    else if stringLess k k' then (k, v) :: (k', v') :: m
    else (k', v') :: insert m k v

/-- Construction from an initializer list: the pairs are inserted one by one. -/
def ofList (l : List (String × V)) : StdMap V :=
  l.foldl (fun m kv => insert m kv.1 kv.2) []

/-- A write through the reference `it->second` of the entry that `m.find(k)` found:
the mapped value of that entry becomes `v`, nothing else changes. -/
def setAt : StdMap V → String → V → StdMap V
  | [], _, _ => []
  | (k', v') :: m, k, v =>
    if k' = k then (k', v) :: m else (k', v') :: setAt m k v

end StdMap

/-! ## Data model -/

/-- The variant `CellValue = std::variant<std::string, int, double, bool, std::nullptr_t>`. -/
inductive CellValue where
  | string (s : String)
  | int (i : Int)
  | double (d : Double)
  | bool (b : Bool)
  | null
  deriving DecidableEq

/-- The enumeration `ColumnType`. -/
inductive ColumnType where
  | String
  | Number
  | Currency
  | Bool
  deriving DecidableEq

/-- The struct `ColumnDef`. -/
structure ColumnDef where
  id : String
  title : String
  type : ColumnType
  width : Int
  is_tree : Bool
  is_pinned : Bool
  is_editable : Bool
  is_primary : Bool
  deriving DecidableEq

/-- The struct `Row`. -/
structure Row where
  id : String
  parent_id : Option String
  cells : StdMap CellValue
  deriving DecidableEq

/-- The struct `Table`. -/
structure Table where
  id : String
  name : String
  primary_key : String
  parent_key : String
  schema : List ColumnDef
  rows : List Row
  deriving DecidableEq

/-- The class `DataStore`: its only member is `tables_`. -/
structure DataStore where
  tables_ : StdMap Table
  deriving DecidableEq

/-! ## Wire formats -/

/-- A `crow::json::wvalue`, the JSON value the server writes. A number keeps the C++
type it was built from (`int` or `double`). -/
inductive WValue where
  | null
  | boolean (b : Bool)
  | int (i : Int)
  | double (d : Double)
  | string (s : String)
  | list (items : List WValue)
  | object (members : List (String × WValue))

/-- A `crow::json::rvalue`, the JSON value the server reads: `t()` is the constructor
(`boolean b` stands for the types `True` and `False`), `s()`, `b()` and `d()` are the
payloads. -/
inductive RValue where
  | null
  | boolean (b : Bool)
  | number (d : Double)
  | string (s : String)
  | list (items : List RValue)
  | object (members : List (String × RValue))

mutual

/-- The `rvalue` a reader obtains for a `wvalue` that was written: the same JSON value,
a number being read by `d()` as a `double` whichever C++ type wrote it. -/
def WValue.read : WValue → RValue
  | .null => .null
  | .boolean b => .boolean b
  | .int i => .number (Double.ofInt i)
  | .double d => .number d
  | .string s => .string s
  | .list items => .list (WValue.readItems items)
  | .object members => .object (WValue.readMembers members)

/-- Reading of the items of a JSON list, one by one. -/
def WValue.readItems : List WValue → List RValue
  | [] => []
  | x :: xs => x.read :: WValue.readItems xs

/-- Reading of the members of a JSON object, one by one. -/
def WValue.readMembers : List (String × WValue) → List (String × RValue)
  | [] => []
  | (k, x) :: xs => (k, x.read) :: WValue.readMembers xs

end

/-- Modelled from the spec: the message `tables::Value` of `table.proto`, which is not
among the sources; its `oneof kind` has the cases that `main.cpp` names
(`kNullValue`, `kStringValue`, `kBoolValue`, `kIntValue` with an `int64` payload,
`kDoubleValue`) and the state `KIND_NOT_SET`. -/
inductive ProtoValue where
  | null_value
  | string_value (s : String)
  | bool_value (b : Bool)
  | int_value (n : Int)
  | double_value (d : Double)
  | kind_not_set
  deriving DecidableEq

/-- What a call of a decode function does: it returns a `std::optional<CellValue>` and
leaves `error_message` with some content, or it runs into a `double` to `int`
conversion whose behaviour is undefined. -/
inductive Decoded where
  | returned (result : Option CellValue) (error_message : String)
  | undefined
  deriving DecidableEq

/-- The function `valueToJson`. -/
def valueToJson : CellValue → WValue
  | .int i => .int i
  | .double d => .double d
  | .bool b => .boolean b
  | .string s => .string s
  | .null => .null

/-- The function `parseJsonValueForColumn`. -/
def parseJsonValueForColumn (node : RValue) (column : ColumnDef) (error_message : String) :
    Decoded :=
  match node with
  | .null => .returned (some .null) error_message
  | _ =>
    match column.type with
    | .String =>
      match node with
      | .string s => .returned (some (.string s)) error_message
      | _ => .returned none "Expected string value"
    | .Bool =>
      match node with
      | .boolean b => .returned (some (.bool b)) error_message
      | _ => .returned none "Expected boolean value"
    | .Number | .Currency =>
      match node with
      | .number number =>
        if column.type = .Number ∧ (Double.floor number).eq number = true then
          match number.toInt with
          | some i => .returned (some (.int i)) error_message
          | none => .undefined
        else .returned (some (.double number)) error_message
      | _ => .returned none "Expected numeric value"

/-- The function `toProtoValue`. -/
def toProtoValue : CellValue → ProtoValue
  | .string s => .string_value s
  | .int i => .int_value i
  | .double d => .double_value d
  | .bool b => .bool_value b
  | .null => .null_value

/-- The function `parseProtoValueForColumn`. -/
def parseProtoValueForColumn (proto_value : ProtoValue) (column : ColumnDef)
    (error_message : String) : Decoded :=
  match proto_value with
  | .null_value => .returned (some .null) error_message
  | .string_value s =>
    if column.type = .String then .returned (some (.string s)) error_message
    else .returned none "Expected string value"
  | .bool_value b =>
    if column.type = .Bool then .returned (some (.bool b)) error_message
    else .returned none "Expected boolean value"
  | .int_value n =>
    if column.type = .Currency then
      .returned (some (.double (Double.ofInt64 n))) error_message
    else if column.type = .Number then
      .returned (some (.int (wrapInt32 n))) error_message
    else .returned none "Expected numeric value"
  | .double_value number =>
    if column.type = .Currency then .returned (some (.double number)) error_message
    else if column.type = .Number then
      if (Double.floor number).eq number = true then
        match number.toInt with
        | some i => .returned (some (.int i)) error_message
        | none => .undefined
      else .returned (some (.double number)) error_message
    else .returned none "Expected numeric value"
  | .kind_not_set => .returned none "Value is missing"

/-! ## The data store -/

/-- The search `std::find_if(table.schema.begin(), table.schema.end(), ...)` for the
first column whose id is `column_id`, as in `findColumn` and `updateCell`. -/
def findColumn (table : Table) (column_id : String) : Option ColumnDef :=
  table.schema.find? (fun c => decide (c.id = column_id))

/-- The assignment `row_it->cells[column_id] = value` at the first row of the list
whose id is `row_id` (the row `std::find_if` returns); `none` when there is no such
row (`row_it == table.rows.end()`). -/
def assignCell : List Row → String → String → CellValue → Option (List Row)
  | [], _, _, _ => none
  | r :: rows, row_id, column_id, value =>
    if r.id = row_id then
      some ({ r with cells := StdMap.assign r.cells column_id value } :: rows)
    else (assignCell rows row_id column_id value).map (fun rows' => r :: rows')

/-- What a call of `DataStore::updateCell` leaves behind: the returned `bool`, the
store, and the content of `error_message`. -/
structure UpdateResult where
  ok : Bool
  store : DataStore
  error_message : String
  deriving DecidableEq

/-- The method `DataStore::getTable`. -/
def DataStore.getTable (db : DataStore) (id : String) : Option Table :=
  StdMap.find db.tables_ id

/-- The method `DataStore::updateCell`. -/
def DataStore.updateCell (db : DataStore) (table_id row_id column_id : String)
    (value : CellValue) (error_message : String) : UpdateResult :=
  match StdMap.find db.tables_ table_id with
  | none => ⟨false, db, "Table not found"⟩
  | some table =>
    match table.schema.find? (fun c => decide (c.id = column_id)) with
    | none => ⟨false, db, "Column not found"⟩
    | some col =>
      if col.is_primary then ⟨false, db, "Primary key column is read-only"⟩
      else if !col.is_editable then ⟨false, db, "Column is read-only"⟩
      else
        match assignCell table.rows row_id column_id value with
        | none => ⟨false, db, "Row not found"⟩
        | some rows =>
          ⟨true, ⟨StdMap.setAt db.tables_ table_id { table with rows := rows }⟩,
            error_message⟩

/-- The table `employees` as the constructor `DataStore::DataStore` builds it. In a
cell initializer a string literal selects the `std::string` alternative of the
variant, an integer literal the `int` alternative, a literal with a decimal point the
`double` alternative; the cells of a row are inserted in the order written. -/
def seedEmployees : Table where
  id := "employees"
  name := "HR"
  primary_key := "id"
  parent_key := "pid"
  schema := [
    ⟨"id", "ID", .String, 120, true, true, false, true⟩,
    ⟨"name", "Name", .String, 260, true, false, true, false⟩,
    ⟨"position", "Position", .String, 200, false, false, true, false⟩,
    ⟨"salary", "Salary", .Currency, 120, false, false, true, false⟩,
    ⟨"active", "Active", .Bool, 80, false, false, true, false⟩]
  rows := [
    ⟨"1", none, StdMap.ofList [("id", .string "1"), ("name", .string "Ivanov I.I."),
      ("position", .string "CEO"), ("salary", .int 500000), ("active", .bool true)]⟩,
    ⟨"2", some "1", StdMap.ofList [("id", .string "2"), ("name", .string "Petrov P.P."),
      ("position", .string "CTO"), ("salary", .int 400000), ("active", .bool true)]⟩,
    ⟨"3", some "2", StdMap.ofList [("id", .string "3"), ("name", .string "Sidorov S.S."),
      ("position", .string "Senior Engineer"), ("salary", .int 300000),
      ("active", .bool true)]⟩,
    ⟨"4", some "2", StdMap.ofList [("id", .string "4"), ("name", .string "Kuznetsov K.K."),
      ("position", .string "Junior Engineer"), ("salary", .int 80000),
      ("active", .bool false)]⟩,
    ⟨"5", none, StdMap.ofList [("id", .string "5"), ("name", .string "Accounting"),
      ("position", .string "Department"), ("salary", .int 0), ("active", .bool true)]⟩,
    ⟨"6", some "5", StdMap.ofList [("id", .string "6"), ("name", .string "Smirnova A.A."),
      ("position", .string "Chief Accountant"), ("salary", .int 250000),
      ("active", .bool true)]⟩]

/-- The table `inventory` as the constructor `DataStore::DataStore` builds it. -/
def seedInventory : Table where
  id := "inventory"
  name := "Warehouse"
  primary_key := "sku"
  parent_key := "parent_sku"
  schema := [
    ⟨"sku", "SKU", .String, 160, true, true, false, true⟩,
    ⟨"item_name", "Item", .String, 300, false, false, true, false⟩,
    ⟨"qty", "Quantity", .Number, 100, false, false, true, false⟩,
    ⟨"price", "Unit price", .Currency, 120, false, false, true, false⟩,
    ⟨"zone", "Zone", .String, 80, false, false, true, false⟩]
  rows := [
    ⟨"100", none, StdMap.ofList [("sku", .string "ELEC-001"),
      ("item_name", .string "Electronics"), ("qty", .int 0),
      ("price", .double (.finite 0)), ("zone", .string "A")]⟩,
    ⟨"101", some "100", StdMap.ofList [("sku", .string "CPU-INT-9"),
      ("item_name", .string "Intel Core i9"), ("qty", .int 45),
      ("price", .double (.finite 500)), ("zone", .string "A1")]⟩,
    ⟨"102", some "100", StdMap.ofList [("sku", .string "GPU-NV-40"),
      ("item_name", .string "Nvidia RTX 4090"), ("qty", .int 12),
      ("price", .double (.finite 1800)), ("zone", .string "A2")]⟩,
    ⟨"200", none, StdMap.ofList [("sku", .string "FURN-001"),
      ("item_name", .string "Furniture"), ("qty", .int 0),
      ("price", .double (.finite 0)), ("zone", .string "B")]⟩,
    ⟨"201", some "200", StdMap.ofList [("sku", .string "CH-OFF-B"),
      ("item_name", .string "Office Chair"), ("qty", .int 150),
      ("price", .double (.finite 120)), ("zone", .string "B5")]⟩]

/-- The constructor `DataStore::DataStore`: both tables are assigned into the empty
map under their ids. -/
def DataStore.new : DataStore :=
  ⟨StdMap.assign (StdMap.assign [] seedEmployees.id seedEmployees)
    seedInventory.id seedInventory⟩

/-! ## The validation order of `updateCell`, in the words of the specification -/

namespace Spec

/-- Check (1): the table exists. -/
def tableExists (db : DataStore) (table_id : String) : Bool :=
  (db.getTable table_id).isSome

/-- The column descriptor a call addresses: the first column of the table's schema
with the given id. -/
def column (db : DataStore) (table_id column_id : String) : Option ColumnDef :=
  (db.getTable table_id).bind (fun t => findColumn t column_id)

/-- Check (2): the column exists in that table's schema. -/
def columnExists (db : DataStore) (table_id column_id : String) : Bool :=
  match db.getTable table_id with
  | some t => t.schema.any (fun c => decide (c.id = column_id))
  | none => false

/-- Check (3): the column is not primary. -/
def columnNotPrimary (db : DataStore) (table_id column_id : String) : Bool :=
  match column db table_id column_id with
  | some c => !c.is_primary
  | none => false

/-- Check (4): the column's `is_editable` flag is true. -/
def columnEditable (db : DataStore) (table_id column_id : String) : Bool :=
  match column db table_id column_id with
  | some c => c.is_editable
  | none => false

/-- Check (5): a row with that id exists in that table. -/
def rowExists (db : DataStore) (table_id row_id : String) : Bool :=
  match db.getTable table_id with
  | some t => t.rows.any (fun r => decide (r.id = row_id))
  | none => false

/-- The message of the first failing check in the order (1) to (5), `none` when all
five checks pass. -/
def firstFailure (db : DataStore) (table_id row_id column_id : String) : Option String :=
  if !tableExists db table_id then some "Table not found"
  else if !columnExists db table_id column_id then some "Column not found"
  else if !columnNotPrimary db table_id column_id then some "Primary key column is read-only"
  else if !columnEditable db table_id column_id then some "Column is read-only"
  else if !rowExists db table_id row_id then some "Row not found"
  else none

end Spec

/-- A store with one table whose primary-key column `id` is also flagged editable, and
whose column `code` is neither primary nor editable. -/
def sampleStore : DataStore :=
  ⟨StdMap.assign [] "t" {
    id := "t", name := "T", primary_key := "id", parent_key := "",
    schema := [
      ⟨"id", "ID", .String, 10, false, false, true, true⟩,
      ⟨"code", "Code", .Number, 10, false, false, false, false⟩,
      ⟨"qty", "Quantity", .Number, 10, false, false, true, false⟩],
    rows := [
      ⟨"r1", none, StdMap.ofList [("id", .string "r1"), ("qty", .int 1)]⟩,
      ⟨"r2", some "r1", StdMap.ofList [("id", .string "r2")]⟩] }⟩

/-! ## Columns of the seed tables and auxiliary notions of the statements -/

/-- The column `active` (Bool) of the table `employees`. -/
def activeColumn : ColumnDef :=
  ⟨"active", "Active", .Bool, 80, false, false, true, false⟩

/-- The column `salary` (Currency) of the table `employees`. -/
def salaryColumn : ColumnDef :=
  ⟨"salary", "Salary", .Currency, 120, false, false, true, false⟩

/-- The column `qty` (Number) of the table `inventory`. -/
def qtyColumn : ColumnDef :=
  ⟨"qty", "Quantity", .Number, 100, false, false, true, false⟩

/-- The column `price` (Currency) of the table `inventory`. -/
def priceColumn : ColumnDef :=
  ⟨"price", "Unit price", .Currency, 120, false, false, true, false⟩

/-- A returned value with any message, the way a caller of a decode function sees it:
`some (some v)` for a value, `some none` for a rejection, `none` when the call has no
defined behaviour. -/
def Decoded.result : Decoded → Option (Option CellValue)
  | .returned r _ => some r
  | .undefined => none

/-- A stored `int` is within the range of the C++ type `int`; the other variants carry
no constraint. -/
def CellValue.wellFormed : CellValue → Prop
  | .int i => inInt32 i
  | _ => True

/-- The Values that a column type decodes to themselves: the absent Value under every
type, text under String, booleans under Bool, reals under Currency, and under Number
the integers and the reals that `operator==` tells apart from their floor. -/
def CellValue.fitsColumn : ColumnType → CellValue → Bool
  | _, .null => true
  | .String, .string _ => true
  | .Bool, .bool _ => true
  | .Currency, .double _ => true
  | .Number, .int i => decide (inInt32 i)
  | .Number, .double d => !(Double.floor d).eq d
  | _, _ => false

/-- What a round trip may return for the stored Value `v` under the column type `t`:
`v` itself, or the real of the same number for an integer under Currency, or the
integer of the same number for a whole real under Number. -/
def roundTripOutcome (t : ColumnType) (v v' : CellValue) : Prop :=
  v' = v ∨
  (t = .Currency ∧ ∃ i : Int, v = .int i ∧ v' = .double (.finite i)) ∨
  (t = .Number ∧ ∃ i : Int, v = .double (.finite i) ∧ v' = .int i)

/-! ## Sequences of updates -/

/-- The arguments of one call of `DataStore::updateCell`, with the content that the
caller's `error_message` has before the call. -/
structure UpdateCall where
  table_id : String
  row_id : String
  column_id : String
  value : CellValue
  error_message : String

/-- The store after the calls of a list, made one after the other. -/
def DataStore.run (db : DataStore) : List UpdateCall → DataStore
  | [] => db
  | c :: cs =>
    DataStore.run
      (db.updateCell c.table_id c.row_id c.column_id c.value c.error_message).store cs

/-- The ids of the columns of a table's schema. -/
def Table.columnIds (t : Table) : List String :=
  t.schema.map ColumnDef.id

/-- Every key of every row's `cells` is the id of a column of the table's schema. -/
def Table.cellsInSchema (t : Table) : Prop :=
  ∀ r ∈ t.rows, ∀ cell ∈ r.cells, cell.1 ∈ t.columnIds

instance (t : Table) : Decidable t.cellsInSchema := by
  unfold Table.cellsInSchema; exact inferInstance

/-- The row ids of a table are pairwise distinct. -/
def Table.rowIdsDistinct (t : Table) : Prop :=
  (t.rows.map Row.id).Nodup

instance (t : Table) : Decidable t.rowIdsDistinct := by
  unfold Table.rowIdsDistinct; exact inferInstance

/-- The column `id` (String, primary) of the table `employees`. -/
def idColumn : ColumnDef :=
  ⟨"id", "ID", .String, 120, true, true, false, true⟩

/-- The Value stored for a column in the first row with a given id of a table of the
store, if the table, the row and the cell exist. -/
def DataStore.cell (db : DataStore) (table_id row_id column_id : String) :
    Option CellValue :=
  (db.getTable table_id).bind (fun t =>
    (t.rows.find? (fun r => decide (r.id = row_id))).bind (fun r =>
      StdMap.find r.cells column_id))

/-! ## Encoders of the read path -/

/-- The access `(*o)[key]` to a member of a JSON object under construction, followed by
a write `f` through the returned reference: a missing member is created as null. The
members are kept in the order of their creation. -/
def WValue.updMember : List (String × WValue) → String → (WValue → WValue) →
    List (String × WValue)
  | [], key, f => [(key, f .null)]
  | (k, v) :: ms, key, f =>
    if k = key then (k, f v) :: ms else (k, v) :: WValue.updMember ms key f

/-- The access `(*l)[index]` to an item of a JSON list under construction, followed by a
write `f` through the returned reference: a list that is too short is first resized
with nulls to `index + 1` items. -/
def WValue.updItem : List WValue → Nat → (WValue → WValue) → List WValue
  | [], 0, f => [f .null]
  | [], i + 1, f => .null :: WValue.updItem [] i f
  | x :: xs, 0, f => f x :: xs
  | x :: xs, i + 1, f => x :: WValue.updItem xs i f

/-- The expression `w[key]` of `crow::json::wvalue`, continued by the write `f`: a value
that is not an object is reset to the empty object first. -/
def WValue.atKey (w : WValue) (key : String) (f : WValue → WValue) : WValue :=
  match w with
  | .object members => .object (WValue.updMember members key f)
  | _ => .object (WValue.updMember [] key f)

/-- The expression `w[index]` of `crow::json::wvalue`, continued by the write `f`: a
value that is not a list is reset to the empty list first. -/
def WValue.atIndex (w : WValue) (index : Nat) (f : WValue → WValue) : WValue :=
  match w with
  | .list items => .list (WValue.updItem items index f)
  | _ => .list (WValue.updItem [] index f)

/-- The statement `payload[key] = v`. -/
def WValue.assign1 (payload : WValue) (key : String) (v : WValue) : WValue :=
  payload.atKey key (fun _ => v)

/-- The statement `payload[i][key] = v`. -/
def WValue.assign2 (payload : WValue) (i : Nat) (key : String) (v : WValue) : WValue :=
  payload.atIndex i (fun item => item.atKey key (fun _ => v))

/-- The statement `payload[key][i][key2] = v`. -/
def WValue.assign3 (payload : WValue) (key : String) (i : Nat) (key2 : String)
    (v : WValue) : WValue :=
  payload.atKey key (fun l => l.atIndex i (fun item => item.atKey key2 (fun _ => v)))

/-- The member of a JSON object stored under a key; `none` when there is none or the
value is not an object. -/
def WValue.member? : WValue → String → Option WValue
  | .object members, key => (members.find? (fun m => decide (m.1 = key))).map Prod.snd
  | _, _ => none

/-- The items of a JSON list; none for a value that is not a list. -/
def WValue.items : WValue → List WValue
  | .list items => items
  | _ => []

/-- The function `toString(ColumnType)`. -/
def toString : ColumnType → String
  | .String => "string"
  | .Number => "number"
  | .Currency => "currency"
  | .Bool => "bool"

/-- The loop of `buildSchemaJson` over the columns from index `i` on. -/
def buildSchemaJson.columns : List ColumnDef → Nat → WValue → WValue
  | [], _, payload => payload
  | column :: rest, i, payload =>
    let payload := payload.assign3 "columns" i "id" (.string column.id)
    let payload := payload.assign3 "columns" i "title" (.string column.title)
    let payload := payload.assign3 "columns" i "type" (.string (toString column.type))
    let payload := payload.assign3 "columns" i "width" (.int column.width)
    let payload := payload.assign3 "columns" i "isTreeColumn" (.boolean column.is_tree)
    let payload := payload.assign3 "columns" i "isPinned" (.boolean column.is_pinned)
    let payload := payload.assign3 "columns" i "isEditable"
      (.boolean (column.is_editable && !column.is_primary))
    let payload := payload.assign3 "columns" i "isPrimary" (.boolean column.is_primary)
    buildSchemaJson.columns rest (i + 1) payload

/-- The function `buildSchemaJson`. -/
def buildSchemaJson (table : Table) : WValue :=
  let payload := WValue.null
  let payload := payload.assign1 "tableId" (.string table.id)
  let payload := payload.assign1 "name" (.string table.name)
  let payload := payload.assign1 "primaryKey" (.string table.primary_key)
  let payload := payload.assign1 "parentKey" (.string table.parent_key)
  buildSchemaJson.columns table.schema 0 payload

/-- The inner loop of `buildRowsJson` over the cells of the row with index `i`. -/
def buildRowsJson.cells : List (String × CellValue) → Nat → WValue → WValue
  | [], _, payload => payload
  | (key, value) :: rest, i, payload =>
    buildRowsJson.cells rest i (payload.assign2 i key (valueToJson value))

/-- The loop of `buildRowsJson` over the rows from index `i` on. -/
def buildRowsJson.rows (table : Table) : List Row → Nat → WValue → WValue
  | [], _, payload => payload
  | row :: rest, i, payload =>
    let payload := payload.assign2 i table.primary_key (.string row.id)
    let payload :=
      if table.parent_key ≠ "" then
        match row.parent_id with
        | some parent => payload.assign2 i table.parent_key (.string parent)
        | none => payload.assign2 i table.parent_key .null
      else payload
    let payload := buildRowsJson.cells row.cells i payload
    buildRowsJson.rows table rest (i + 1) payload

/-- The function `buildRowsJson`. -/
def buildRowsJson (table : Table) : WValue :=
  buildRowsJson.rows table table.rows 0 .null

/-- Modelled from the spec: the enum `tables::ColumnType` of `table.proto`, which is not
among the sources, with the four values that `toProtoColumnType` returns. -/
inductive ProtoColumnType where
  | COLUMN_TYPE_STRING
  | COLUMN_TYPE_NUMBER
  | COLUMN_TYPE_CURRENCY
  | COLUMN_TYPE_BOOL
  deriving DecidableEq

/-- The function `toProtoColumnType`. -/
def toProtoColumnType : ColumnType → ProtoColumnType
  | .String => .COLUMN_TYPE_STRING
  | .Number => .COLUMN_TYPE_NUMBER
  | .Currency => .COLUMN_TYPE_CURRENCY
  | .Bool => .COLUMN_TYPE_BOOL

/-- Modelled from the spec: the column message of `table.proto` (not among the
sources), with the fields that `fillProtoSchema` sets. -/
structure ProtoColumn where
  id : String
  title : String
  type : ProtoColumnType
  width : Int
  is_tree : Bool
  is_pinned : Bool
  is_editable : Bool
  is_primary : Bool
  deriving DecidableEq

/-- Modelled from the spec: the message `tables::TableSchema` of `table.proto` (not
among the sources), with the fields that `fillProtoSchema` sets. -/
structure ProtoTableSchema where
  table_id : String
  name : String
  primary_key : String
  parent_key : String
  columns : List ProtoColumn
  deriving DecidableEq

/-- A freshly constructed `tables::TableSchema`: empty strings, no columns. -/
def ProtoTableSchema.empty : ProtoTableSchema :=
  ⟨"", "", "", "", []⟩

/-- The loop of `fillProtoSchema`: each `add_columns()` appends a column, whose fields
are then set. -/
def fillProtoSchema.columns : List ColumnDef → ProtoTableSchema → ProtoTableSchema
  | [], schema => schema
  | column :: rest, schema =>
    fillProtoSchema.columns rest
      { schema with columns := schema.columns ++ [{
          id := column.id, title := column.title, type := toProtoColumnType column.type,
          width := column.width, is_tree := column.is_tree, is_pinned := column.is_pinned,
          is_editable := column.is_editable && !column.is_primary,
          is_primary := column.is_primary }] }

/-- The function `fillProtoSchema`, as a function of the message it is given. -/
def fillProtoSchema (table : Table) (schema : ProtoTableSchema) : ProtoTableSchema :=
  fillProtoSchema.columns table.schema
    ⟨table.id, table.name, table.primary_key, table.parent_key, schema.columns⟩

/-- The encoded columns of a schema payload: the items of its member `columns` (none
when the member is missing). -/
def jsonColumns (payload : WValue) : List WValue :=
  ((payload.member? "columns").getD .null).items

/-- The record that one iteration of the loop of `buildRowsJson` builds for a row, on
an item that starts as null: the primary key, then the parent key, then the cells. -/
def buildRowsJson.record (table : Table) (row : Row) : WValue :=
  let item := WValue.null.atKey table.primary_key (fun _ => .string row.id)
  let item :=
    if table.parent_key ≠ "" then
      match row.parent_id with
      | some parent => item.atKey table.parent_key (fun _ => .string parent)
      | none => item.atKey table.parent_key (fun _ => .null)
    else item
  row.cells.foldl (fun w cell => w.atKey cell.1 (fun _ => valueToJson cell.2)) item

/-! ## The update endpoint of the JSON surface -/

/-- A `crow::response`, as far as the handlers touch it: status code, headers in the
order added, and the body written so far. -/
structure HttpResponse where
  code : Nat
  headers : List (String × String)
  body : String
  deriving DecidableEq

/-- The response that the framework hands to a handler: code 200, nothing written. -/
def HttpResponse.fresh : HttpResponse :=
  ⟨200, [], ""⟩

/-- What a call of the update handler does: it ends the response and leaves a store; or
a `crow::json` accessor throws (`s()` on a value that is not a string); or decoding
runs into the undefined conversion. -/
inductive HttpOutcome where
  | ended (res : HttpResponse) (db : DataStore)
  | threw
  | undefined
  deriving DecidableEq

/-- The lambda `setCors`. -/
def setCors (res : HttpResponse) : HttpResponse :=
  { res with headers := res.headers ++ [
      ("Access-Control-Allow-Origin", "*"),
      ("Access-Control-Allow-Methods", "GET, POST, OPTIONS"),
      ("Access-Control-Allow-Headers", "Content-Type")] }

/-- The call `res.write(text)`: the text is appended to the body. -/
def HttpResponse.write (res : HttpResponse) (text : String) : HttpResponse :=
  { res with body := res.body ++ text }

/-- The member `body[key]` of a parsed JSON object (the first one, should the text
repeat a key). -/
def memberOf (members : List (String × RValue)) (key : String) : Option RValue :=
  (members.find? (fun m => decide (m.1 = key))).map Prod.snd

/-- The accessor `s()` of `crow::json::rvalue`: `none` stands for the exception thrown
on a value that is not a string. -/
def RValue.s : RValue → Option String
  | .string s => some s
  | _ => none

/-- The handler of `POST /api/table/<string>/update`. The argument `body` is what
`crow::json::load(req.body)` returns: `none` for text that is not JSON, the members
of the object otherwise (a JSON text that is not an object is outside this model). -/
def updateHandler (db : DataStore) (body : Option (List (String × RValue)))
    (res : HttpResponse) (table_id : String) : HttpOutcome :=
  let res := setCors res
  match body with
  | none =>
    .ended ({ res with code := 400 }.write "\x7b\"error\":\"invalid json\"\x7d") db
  | some body =>
    match db.getTable table_id with
    | none =>
      .ended ({ res with code := 404 }.write "\x7b\"error\":\"table not found\"\x7d") db
    | some table =>
      match memberOf body "row_id", memberOf body "column_id", memberOf body "value" with
      | some row, some col, some value =>
        match row.s, col.s with
        | some row_id, some column_id =>
          match findColumn table column_id with
          | none =>
            .ended ({ res with code := 404 }.write
              "\x7b\"error\":\"column not found\"\x7d") db
          | some column =>
            match parseJsonValueForColumn value column "" with
            | .undefined => .undefined
            | .returned none parse_error =>
              .ended ({ res with code := 400 }.write
                ("\x7b\"error\":\"" ++ parse_error ++ "\"\x7d")) db
            | .returned (some v) _ =>
              let r := db.updateCell table_id row_id column_id v ""
              if r.ok then .ended (res.write "\x7b\"status\":\"ok\"\x7d") r.store
              else
                .ended ({ res with code := 400 }.write
                  ("\x7b\"error\":\"" ++ r.error_message ++ "\"\x7d")) r.store
        | _, _ => .threw
      | _, _, _ =>
        .ended ({ res with code := 400 }.write
          "\x7b\"error\":\"row_id, column_id and value are required\"\x7d") db

/-! ## The RPC surface -/

/-- The codes of `grpc::StatusCode` that the service returns. -/
inductive StatusCode where
  | OK
  | NOT_FOUND
  deriving DecidableEq

/-- A `grpc::Status`: code and message. -/
structure Status where
  code : StatusCode
  message : String
  deriving DecidableEq

/-- The constant `grpc::Status::OK`. -/
def Status.OK : Status :=
  ⟨.OK, ""⟩

/-- Modelled from the spec: the message `tables::GetSchemaRequest` of `table.proto` (not
among the sources), with the field the handler reads. -/
structure GetSchemaRequest where
  table_id : String
  deriving DecidableEq

/-- Modelled from the spec: the message `tables::GetSchemaResponse` of `table.proto`
(not among the sources): its submessage `schema`, absent until `mutable_schema()`
creates it. -/
structure GetSchemaResponse where
  schema : Option ProtoTableSchema
  deriving DecidableEq

/-- Modelled from the spec: the message `tables::GetDataRequest` of `table.proto` (not
among the sources), with the field the handler reads. -/
structure GetDataRequest where
  table_id : String
  deriving DecidableEq

/-- Modelled from the spec: the row message of `table.proto` (not among the sources),
with the fields that `GetData` sets; `parent_id` is absent unless set. -/
structure ProtoRow where
  id : String
  parent_id : Option String
  cells : StdMap ProtoValue
  deriving DecidableEq

/-- Modelled from the spec: the message `tables::GetDataResponse` of `table.proto` (not
among the sources). -/
structure GetDataResponse where
  rows : List ProtoRow
  deriving DecidableEq

/-- Modelled from the spec: the message `tables::UpdateCellRequest` of `table.proto`
(not among the sources), with the fields the handler reads; a request without a value
carries a value whose kind is not set. -/
structure UpdateCellRequest where
  table_id : String
  row_id : String
  column_id : String
  value : ProtoValue
  deriving DecidableEq

/-- Modelled from the spec: the message `tables::UpdateCellResponse` of `table.proto`
(not among the sources), with the fields the handler sets. -/
structure UpdateCellResponse where
  ok : Bool
  error_message : String
  deriving DecidableEq

/-- The method `TableServiceImpl::GetSchema`: the returned status and the response. -/
def GetSchema (db : DataStore) (request : GetSchemaRequest)
    (response : GetSchemaResponse) : Status × GetSchemaResponse :=
  match db.getTable request.table_id with
  | none => (⟨.NOT_FOUND, "table not found"⟩, response)
  | some table =>
    (Status.OK,
      ⟨some (fillProtoSchema table (response.schema.getD ProtoTableSchema.empty))⟩)

/-- The loop of `GetData` over the cells of a row: `(*cells)[key] = toProtoValue(value)`. -/
def GetData.cells : List (String × CellValue) → StdMap ProtoValue → StdMap ProtoValue
  | [], cells => cells
  | (key, value) :: rest, cells =>
    GetData.cells rest (StdMap.assign cells key (toProtoValue value))

/-- The loop of `GetData` over the rows: each `add_rows()` appends a row. -/
def GetData.rows : List Row → GetDataResponse → GetDataResponse
  | [], response => response
  | row :: rest, response =>
    GetData.rows rest
      ⟨response.rows ++ [⟨row.id, row.parent_id, GetData.cells row.cells []⟩]⟩

/-- The method `TableServiceImpl::GetData`: the returned status and the response. -/
def GetData (db : DataStore) (request : GetDataRequest) (response : GetDataResponse) :
    Status × GetDataResponse :=
  match db.getTable request.table_id with
  | none => (⟨.NOT_FOUND, "table not found"⟩, response)
  | some table => (Status.OK, GetData.rows table.rows response)

/-- What a call of `TableServiceImpl::UpdateCell` does: it returns a status and leaves
a response and a store, or decoding runs into the undefined conversion. -/
inductive UpdateCellOutcome where
  | returned (status : Status) (response : UpdateCellResponse) (db : DataStore)
  | undefined
  deriving DecidableEq

/-- The method `TableServiceImpl::UpdateCell`. -/
def UpdateCell (db : DataStore) (request : UpdateCellRequest)
    (response : UpdateCellResponse) : UpdateCellOutcome :=
  match db.getTable request.table_id with
  | none => .returned Status.OK ⟨false, "table not found"⟩ db
  | some table =>
    match findColumn table request.column_id with
    | none => .returned Status.OK ⟨false, "column not found"⟩ db
    | some column =>
      match parseProtoValueForColumn request.value column "" with
      | .undefined => .undefined
      | .returned none parse_error => .returned Status.OK ⟨false, parse_error⟩ db
      | .returned (some v) _ =>
        let r := db.updateCell request.table_id request.row_id request.column_id v ""
        if r.ok then .returned Status.OK ⟨true, response.error_message⟩ r.store
        else .returned Status.OK ⟨false, r.error_message⟩ r.store

/-! ## Auxiliary notions for sequences of two calls -/

/-- The result of `updateCell` for the arguments of a call. -/
def DataStore.call (db : DataStore) (c : UpdateCall) : UpdateResult :=
  db.updateCell c.table_id c.row_id c.column_id c.value c.error_message

/-- The write that `updateCell` makes once its checks on the column have passed: the
cell of the first row with the given id in the table found under `table_id` is
assigned; the store is returned as it is when the table or the row is missing. -/
def DataStore.put (db : DataStore) (table_id row_id column_id : String)
    (value : CellValue) : DataStore :=
  match StdMap.find db.tables_ table_id with
  | none => db
  | some table =>
    match assignCell table.rows row_id column_id value with
    | none => db
    | some rows => ⟨StdMap.setAt db.tables_ table_id { table with rows := rows }⟩

/-- The table of `sampleStore`. -/
def sampleTable : Table where
  id := "t"
  name := "T"
  primary_key := "id"
  parent_key := ""
  schema := [
    ⟨"id", "ID", .String, 10, false, false, true, true⟩,
    ⟨"code", "Code", .Number, 10, false, false, false, false⟩,
    ⟨"qty", "Quantity", .Number, 10, false, false, true, false⟩]
  rows := [
    ⟨"r1", none, StdMap.ofList [("id", .string "r1"), ("qty", .int 1)]⟩,
    ⟨"r2", some "r1", StdMap.ofList [("id", .string "r2")]⟩]

/-! ## Lemmas on maps and rows -/

namespace StdMap

variable {V : Type}

theorem find_assign_self (m : StdMap V) (k : String) (v : V) :
    find (assign m k v) k = some v := by
  induction m with
  | nil => simp [assign, find]
  | cons e m ih =>
    obtain ⟨k', v'⟩ := e
    unfold assign
    by_cases h : k' = k
    · simp [h, find]
    · by_cases hlt : stringLess k k' = true
      · simp [h, hlt, find]
      · simp [h, hlt, find, ih]

theorem find_assign_ne (m : StdMap V) (k k₂ : String) (v : V) (hne : k₂ ≠ k) :
    find (assign m k v) k₂ = find m k₂ := by
  induction m with
  | nil => simp [assign, find, Ne.symm hne]
  | cons e m ih =>
    obtain ⟨k', v'⟩ := e
    unfold assign
    by_cases h : k' = k
    · subst h
      simp [find, Ne.symm hne]
    · by_cases hlt : stringLess k k' = true
      · simp [h, hlt, find, Ne.symm hne]
      · simp [h, hlt, find, ih]

theorem filter_assign (m : StdMap V) (k : String) (v : V) :
    (assign m k v).filter (fun e => decide (e.1 ≠ k)) = m.filter (fun e => decide (e.1 ≠ k)) := by
  induction m with
  | nil => simp [assign]
  | cons e m ih =>
    obtain ⟨k', v'⟩ := e
    unfold assign
    by_cases h : k' = k
    · simp [h]
    · by_cases hlt : stringLess k k' = true
      · simp [h, hlt]
      · simp only [ne_eq, decide_not] at ih
        simp [h, hlt, ih]

theorem find_setAt_ne (m : StdMap V) (k k₂ : String) (v : V) (hne : k₂ ≠ k) :
    find (setAt m k v) k₂ = find m k₂ := by
  induction m with
  | nil => simp [setAt, find]
  | cons e m ih =>
    obtain ⟨k', v'⟩ := e
    unfold setAt
    by_cases h : k' = k
    · subst h
      simp [find, Ne.symm hne]
    · simp [h, find, ih]

theorem find_setAt_self (m : StdMap V) (k : String) (v₀ v : V) (h₀ : find m k = some v₀) :
    find (setAt m k v) k = some v := by
  induction m with
  | nil => simp [find] at h₀
  | cons e m ih =>
    obtain ⟨k', v'⟩ := e
    unfold setAt
    by_cases h : k' = k
    · simp [h, find]
    · simp only [find, h, if_false] at h₀
      simp [h, find, ih h₀]

theorem keys_setAt (m : StdMap V) (k : String) (v : V) :
    (setAt m k v).map Prod.fst = m.map Prod.fst := by
  induction m with
  | nil => simp [setAt]
  | cons e m ih =>
    obtain ⟨k', v'⟩ := e
    unfold setAt
    by_cases h : k' = k
    · simp [h]
    · simp [h, ih]

theorem filter_setAt (m : StdMap V) (k : String) (v : V) :
    (setAt m k v).filter (fun e => decide (e.1 ≠ k)) = m.filter (fun e => decide (e.1 ≠ k)) := by
  induction m with
  | nil => simp [setAt]
  | cons e m ih =>
    obtain ⟨k', v'⟩ := e
    unfold setAt
    by_cases h : k' = k
    · simp [h]
    · simp only [ne_eq, decide_not] at ih
      simp [h, ih]

end StdMap

theorem assignCell_eq_none (rows : List Row) (row_id column_id : String) (value : CellValue) :
    assignCell rows row_id column_id value = none ↔
      rows.any (fun r => decide (r.id = row_id)) = false := by
  induction rows with
  | nil => simp [assignCell]
  | cons r rows ih =>
    unfold assignCell
    by_cases h : r.id = row_id
    · simp [h]
    · simp [h, ih]

theorem assignCell_some (rows rows' : List Row) (row_id column_id : String) (value : CellValue)
    (h : assignCell rows row_id column_id value = some rows') :
    ∃ (i : Nat) (row : Row),
      rows[i]? = some row ∧ row.id = row_id ∧
      (∀ (j : Nat) (r : Row), j < i → rows[j]? = some r → r.id ≠ row_id) ∧
      rows'[i]? = some { row with cells := StdMap.assign row.cells column_id value } ∧
      (∀ j : Nat, j ≠ i → rows'[j]? = rows[j]?) ∧
      rows'.length = rows.length := by
  induction rows generalizing rows' with
  | nil => simp [assignCell] at h
  | cons r rows ih =>
    unfold assignCell at h
    by_cases hr : r.id = row_id
    · rw [if_pos hr, Option.some.injEq] at h
      subst h
      refine ⟨0, r, by simp, hr, by intro j r' hj; omega, by simp, ?_, by simp⟩
      intro j hj
      cases j with
      | zero => exact absurd rfl hj
      | succ j => simp
    · rw [if_neg hr, Option.map_eq_some'] at h
      obtain ⟨rows₁, h₁, rfl⟩ := h
      obtain ⟨i, row, hi, hid, hfirst, hnew, hother, hlen⟩ := ih rows₁ h₁
      refine ⟨i + 1, row, by simpa using hi, hid, ?_, by simpa using hnew, ?_, by simp [hlen]⟩
      · intro j r' hj hjr
        cases j with
        | zero =>
          simp only [List.getElem?_cons_zero, Option.some.injEq] at hjr
          subst hjr
          exact hr
        | succ j =>
          simp only [List.getElem?_cons_succ] at hjr
          exact hfirst j r' (by omega) hjr
      · intro j hj
        cases j with
        | zero => simp
        | succ j =>
          simp only [List.getElem?_cons_succ]
          exact hother j (by omega)

theorem find?_isSome_eq_any {α : Type} (p : α → Bool) (l : List α) :
    (l.find? p).isSome = l.any p := by
  induction l with
  | nil => rfl
  | cons a l ih =>
    cases hp : p a <;> simp [List.find?, hp, ih]

/-! ## `updateCell`: validation order, effect, failure -/

/-- C1: `updateCell` returns `true` exactly when the five checks (table exists, column
exists, column not primary, column editable, row exists) all pass, and otherwise
leaves in `error_message` the message of the first failing check in that order; the
outcome depends neither on the value nor on the column type. A primary column yields
"Primary key column is read-only" whatever its editable flag and whether or not the
row exists; a non-primary, non-editable column yields "Column is read-only". -/
theorem updateCell_reports_first_failing_check (db : DataStore)
    (table_id row_id column_id : String) (value : CellValue) (error_message : String) :
    (db.updateCell table_id row_id column_id value error_message).ok
      = (Spec.firstFailure db table_id row_id column_id).isNone ∧
    (db.updateCell table_id row_id column_id value error_message).error_message
      = (Spec.firstFailure db table_id row_id column_id).getD error_message ∧
    ((db.updateCell table_id row_id column_id value error_message).ok = true ↔
      Spec.tableExists db table_id = true ∧ Spec.columnExists db table_id column_id = true ∧
      Spec.columnNotPrimary db table_id column_id = true ∧
      Spec.columnEditable db table_id column_id = true ∧
      Spec.rowExists db table_id row_id = true) ∧
    (∀ col : ColumnDef, Spec.column db table_id column_id = some col →
      col.is_primary = true →
      (db.updateCell table_id row_id column_id value error_message).ok = false ∧
      (db.updateCell table_id row_id column_id value error_message).error_message
        = "Primary key column is read-only") ∧
    (∀ col : ColumnDef, Spec.column db table_id column_id = some col →
      col.is_primary = false → col.is_editable = false →
      (db.updateCell table_id row_id column_id value error_message).ok = false ∧
      (db.updateCell table_id row_id column_id value error_message).error_message
        = "Column is read-only") := by
  unfold DataStore.updateCell Spec.firstFailure Spec.tableExists Spec.columnExists
    Spec.columnNotPrimary Spec.columnEditable Spec.rowExists Spec.column DataStore.getTable
    findColumn
  cases hT : StdMap.find db.tables_ table_id with
  | none => simp
  | some table =>
    have hany := find?_isSome_eq_any (fun c : ColumnDef => decide (c.id = column_id)) table.schema
    cases hC : table.schema.find? (fun c => decide (c.id = column_id)) with
    | none =>
      rw [hC] at hany
      simp [hC, ← hany]
    | some col =>
      rw [hC] at hany
      cases hp : col.is_primary with
      | true => simp [hC, ← hany, hp]
      | false =>
        cases he : col.is_editable with
        | false => simp [hC, ← hany, hp, he]
        | true =>
          cases hR : assignCell table.rows row_id column_id value with
          | none =>
            have hrow := (assignCell_eq_none table.rows row_id column_id value).1 hR
            simp [hC, hR, ← hany, hp, he, hrow]
          | some rows =>
            have hrow : table.rows.any (fun r => decide (r.id = row_id)) = true := by
              cases hb : table.rows.any (fun r => decide (r.id = row_id)) with
              | true => rfl
              | false =>
                rw [(assignCell_eq_none table.rows row_id column_id value).2 hb] at hR
                exact absurd hR (by simp)
            simp [hC, hR, ← hany, hp, he, hrow]

/-- Witness of C1 on `sampleStore`: the column `id` is primary and flagged editable,
and the row `nope` does not exist. -/
theorem updateCell_reports_first_failing_check_witness :
    (sampleStore.updateCell "t" "nope" "id" (.int 7) "").ok = false ∧
    (sampleStore.updateCell "t" "nope" "id" (.int 7) "").error_message
      = "Primary key column is read-only" :=
  (updateCell_reports_first_failing_check sampleStore "t" "nope" "id" (.int 7) "").2.2.2.1
    ⟨"id", "ID", .String, 10, false, false, true, true⟩ (by decide) (by decide)

/-- The successful branch of `updateCell`: the store it returns. -/
theorem updateCell_ok_store (db : DataStore) (table_id row_id column_id : String)
    (value : CellValue) (error_message : String)
    (h : (db.updateCell table_id row_id column_id value error_message).ok = true) :
    ∃ (table : Table) (rows : List Row),
      StdMap.find db.tables_ table_id = some table ∧
      assignCell table.rows row_id column_id value = some rows ∧
      (db.updateCell table_id row_id column_id value error_message).store
        = ⟨StdMap.setAt db.tables_ table_id { table with rows := rows }⟩ := by
  unfold DataStore.updateCell at h ⊢
  cases hT : StdMap.find db.tables_ table_id with
  | none => simp [hT] at h
  | some table =>
    cases hC : table.schema.find? (fun c => decide (c.id = column_id)) with
    | none => simp [hT, hC] at h
    | some col =>
      cases hp : col.is_primary with
      | true => simp [hT, hC, hp] at h
      | false =>
        cases he : col.is_editable with
        | false => simp [hT, hC, hp, he] at h
        | true =>
          cases hR : assignCell table.rows row_id column_id value with
          | none => simp [hT, hC, hp, he, hR] at h
          | some rows => exact ⟨table, rows, rfl, hR, by simp [hC, hp, he, hR]⟩

/-- C2: a successful `updateCell` changes the store in one place only. In the table
found under `table_id`, the first row whose id is `row_id` gets `cells[column_id] =
value` (whatever variant `value` is, whether or not the key was there); every other
cell of that row, its id and parent id, every other row, the number and order of the
rows, the table's id, name, primary_key, parent_key and schema, the set of table keys
and every other table are as before. -/
theorem updateCell_success_changes_one_cell (db : DataStore)
    (table_id row_id column_id : String) (value : CellValue) (error_message : String)
    (h : (db.updateCell table_id row_id column_id value error_message).ok = true) :
    ∃ (table table' : Table) (i : Nat) (row row' : Row),
      db.getTable table_id = some table ∧
      (db.updateCell table_id row_id column_id value error_message).store.getTable table_id
        = some table' ∧
      (∀ t : String, t ≠ table_id →
        (db.updateCell table_id row_id column_id value error_message).store.getTable t
          = db.getTable t) ∧
      (db.updateCell table_id row_id column_id value error_message).store.tables_.map Prod.fst
        = db.tables_.map Prod.fst ∧
      (db.updateCell table_id row_id column_id value error_message).store.tables_.filter
          (fun e => decide (e.1 ≠ table_id))
        = db.tables_.filter (fun e => decide (e.1 ≠ table_id)) ∧
      table'.id = table.id ∧ table'.name = table.name ∧
      table'.primary_key = table.primary_key ∧ table'.parent_key = table.parent_key ∧
      table'.schema = table.schema ∧
      table'.rows.length = table.rows.length ∧
      table'.rows.map Row.id = table.rows.map Row.id ∧
      table'.rows.map Row.parent_id = table.rows.map Row.parent_id ∧
      table.rows[i]? = some row ∧ row.id = row_id ∧
      (∀ (j : Nat) (r : Row), j < i → table.rows[j]? = some r → r.id ≠ row_id) ∧
      table'.rows[i]? = some row' ∧
      row'.id = row.id ∧ row'.parent_id = row.parent_id ∧
      StdMap.find row'.cells column_id = some value ∧
      (∀ k : String, k ≠ column_id → StdMap.find row'.cells k = StdMap.find row.cells k) ∧
      row'.cells.filter (fun e => decide (e.1 ≠ column_id))
        = row.cells.filter (fun e => decide (e.1 ≠ column_id)) ∧
      (∀ j : Nat, j ≠ i → table'.rows[j]? = table.rows[j]?) := by
  obtain ⟨table, rows, hT, hR, hS⟩ :=
    updateCell_ok_store db table_id row_id column_id value error_message h
  obtain ⟨i, row, hi, hid, hfirst, hnew, hother, hlen⟩ :=
    assignCell_some table.rows rows row_id column_id value hR
  have hrow : ∀ j : Nat, (rows[j]?).map Row.id = (table.rows[j]?).map Row.id ∧
      (rows[j]?).map Row.parent_id = (table.rows[j]?).map Row.parent_id := by
    intro j
    by_cases hj : j = i
    · subst hj
      simp [hnew, hi]
    · simp [hother j hj]
  refine ⟨table, { table with rows := rows }, i, row,
    { row with cells := StdMap.assign row.cells column_id value }, hT, ?_, ?_, ?_, ?_,
    rfl, rfl, rfl, rfl, rfl, hlen, ?_, ?_, hi, hid, hfirst, hnew, rfl, rfl, ?_, ?_, ?_, hother⟩
  · rw [hS]
    exact StdMap.find_setAt_self db.tables_ table_id table _ hT
  · intro t ht
    rw [hS]
    exact StdMap.find_setAt_ne db.tables_ table_id t _ ht
  · rw [hS]
    exact StdMap.keys_setAt db.tables_ table_id _
  · rw [hS]
    exact StdMap.filter_setAt db.tables_ table_id _
  · apply List.ext_getElem?
    intro j
    simpa using (hrow j).1
  · apply List.ext_getElem?
    intro j
    simpa using (hrow j).2
  · exact StdMap.find_assign_self row.cells column_id value
  · intro k hk
    exact StdMap.find_assign_ne row.cells column_id k value hk
  · exact StdMap.filter_assign row.cells column_id value

/-- Witness of C2 on the constructed store: the salary of the employee in row `1`. -/
theorem updateCell_success_changes_one_cell_witness :
    ∃ (table table' : Table) (i : Nat) (row row' : Row),
      DataStore.new.getTable "employees" = some table ∧
      (DataStore.new.updateCell "employees" "1" "salary" (.double (.finite 600000))
        "").store.getTable "employees" = some table' ∧
      table.rows[i]? = some row ∧ table'.rows[i]? = some row' ∧
      StdMap.find row'.cells "salary" = some (.double (.finite 600000)) ∧
      (∀ k : String, k ≠ "salary" → StdMap.find row'.cells k = StdMap.find row.cells k) :=
  have ⟨table, table', i, row, row', h⟩ :=
    updateCell_success_changes_one_cell DataStore.new "employees" "1" "salary"
      (.double (.finite 600000)) "" (by decide)
  ⟨table, table', i, row, row', h.1, h.2.1, h.2.2.2.2.2.2.2.2.2.2.2.2.2.1,
    h.2.2.2.2.2.2.2.2.2.2.2.2.2.2.2.2.1, h.2.2.2.2.2.2.2.2.2.2.2.2.2.2.2.2.2.2.2.1,
    h.2.2.2.2.2.2.2.2.2.2.2.2.2.2.2.2.2.2.2.2.1⟩

/-- C3: a failing `updateCell` (whichever check failed) returns the store it was
given: no table, row or cell is added, removed or changed. -/
theorem updateCell_failure_keeps_store (db : DataStore) (table_id row_id column_id : String)
    (value : CellValue) (error_message : String)
    (h : (db.updateCell table_id row_id column_id value error_message).ok = false) :
    (db.updateCell table_id row_id column_id value error_message).store = db := by
  unfold DataStore.updateCell at h ⊢
  cases hT : StdMap.find db.tables_ table_id with
  | none => rfl
  | some table =>
    cases hC : table.schema.find? (fun c => decide (c.id = column_id)) with
    | none => simp [hC]
    | some col =>
      cases hp : col.is_primary with
      | true => simp [hC, hp]
      | false =>
        cases he : col.is_editable with
        | false => simp [hC, hp, he]
        | true =>
          cases hR : assignCell table.rows row_id column_id value with
          | none => simp [hC, hp, he, hR]
          | some rows => simp [hT, hC, hp, he, hR] at h

/-- Witness of C3 on the constructed store: an update of the primary-key column. -/
theorem updateCell_failure_keeps_store_witness :
    (DataStore.new.updateCell "employees" "1" "id" (.string "99") "").ok = false ∧
    (DataStore.new.updateCell "employees" "1" "id" (.string "99") "").store = DataStore.new :=
  ⟨by decide, updateCell_failure_keeps_store DataStore.new "employees" "1" "id"
    (.string "99") "" (by decide)⟩

/-! ## Decoding: rejection messages, numbers, null, missing -/

/-- In `parseJsonValueForColumn` the message of a rejection is the one of the column
type: every JSON shape other than null and the accepted one is rejected with it. -/
theorem parseJson_rejection_message (node : RValue) (column : ColumnDef)
    (error_message : String) (hnull : node ≠ .null) :
    (column.type = .String → (∀ s, node ≠ .string s) →
      parseJsonValueForColumn node column error_message
        = .returned none "Expected string value") ∧
    (column.type = .Bool → (∀ b, node ≠ .boolean b) →
      parseJsonValueForColumn node column error_message
        = .returned none "Expected boolean value") ∧
    ((column.type = .Number ∨ column.type = .Currency) → (∀ d, node ≠ .number d) →
      parseJsonValueForColumn node column error_message
        = .returned none "Expected numeric value") := by
  refine ⟨?_, ?_, ?_⟩
  · intro ht hs
    cases node <;> simp_all [parseJsonValueForColumn]
  · intro ht hb
    cases node <;> simp_all [parseJsonValueForColumn]
  · intro ht hd
    rcases ht with ht | ht <;> cases node <;> simp_all [parseJsonValueForColumn]

/-- In `parseProtoValueForColumn` the message of a rejection is the one of the kind
of the wire value, whatever the column type. -/
theorem parseProto_rejection_message (proto_value : ProtoValue) (column : ColumnDef)
    (error_message : String) (msg : String)
    (h : parseProtoValueForColumn proto_value column error_message = .returned none msg) :
    (∀ s, proto_value = .string_value s → msg = "Expected string value") ∧
    (∀ b, proto_value = .bool_value b → msg = "Expected boolean value") ∧
    (∀ n, proto_value = .int_value n → msg = "Expected numeric value") ∧
    (∀ d, proto_value = .double_value d → msg = "Expected numeric value") ∧
    (proto_value = .kind_not_set → msg = "Value is missing") := by
  refine ⟨?_, ?_, ?_, ?_, ?_⟩
  · rintro s rfl
    simp only [parseProtoValueForColumn] at h
    split at h <;> simp_all
  · rintro b rfl
    simp only [parseProtoValueForColumn] at h
    split at h <;> simp_all
  · rintro n rfl
    simp only [parseProtoValueForColumn] at h
    split at h
    · simp_all
    · split at h <;> simp_all
  · rintro d rfl
    simp only [parseProtoValueForColumn] at h
    split at h
    · simp_all
    · split at h
      · split at h
        · split at h <;> simp_all
        · simp_all
      · simp_all
  · rintro rfl
    simp_all [parseProtoValueForColumn]

/-- C4: on the column `active` (Bool) of the seed table `employees`, the text `yes`
is rejected by `parseJsonValueForColumn` with "Expected boolean value", the message
of the column type, and by `parseProtoValueForColumn` with "Expected string value",
the message of the kind of the wire value. -/
theorem parseProto_string_against_bool_column :
    findColumn seedEmployees "active" = some activeColumn ∧
    parseJsonValueForColumn (.string "yes") activeColumn ""
      = .returned none "Expected boolean value" ∧
    parseProtoValueForColumn (.string_value "yes") activeColumn ""
      = .returned none "Expected string value" := by
  decide

/-- A whole number within the range of `int` rounds to itself. -/
theorem Double.roundNat_exact (n : Nat) (h : n ≤ 9007199254740992) :
    Double.roundNat n = n := by
  by_cases hlt : n < 9007199254740992
  · have h0 : Double.lostBits n = 0 := by
      simp [Double.lostBits, Double.lostBitsFrom, hlt]
    simp [Double.roundNat, h0, Nat.mod_one]
  · have h1 : n = 9007199254740992 := by omega
    subst h1
    decide

/-- The conversion of an `int64_t` to `double` is exact up to `2^53` in absolute value. -/
theorem Double.ofInt64_exact (n : Int) (h : n.natAbs ≤ 9007199254740992) :
    Double.ofInt64 n = .finite n := by
  unfold Double.ofInt64
  rw [Double.roundNat_exact _ h]
  by_cases hn : 0 ≤ n
  · simp [hn, Int.natAbs_of_nonneg hn]
  · have h1 : ((n.natAbs : Int)) = -n := by omega
    simp [hn, h1]

/-- Narrowing to `int` keeps a value that is in the range of `int`. -/
theorem wrapInt32_of_inInt32 (n : Int) (h : inInt32 n) : wrapInt32 n = n := by
  unfold inInt32 at h
  unfold wrapInt32
  omega

/-- C5: on the column `qty` (Number) of the seed table `inventory`, the proto int
value 2147483648 (a whole 64-bit number) is decoded to the integer Value -2147483648,
whose numeric value is not the wire number. -/
theorem parseProto_number_int64_narrowed :
    findColumn seedInventory "qty" = some qtyColumn ∧
    inInt64 2147483648 ∧
    parseProtoValueForColumn (.int_value 2147483648) qtyColumn ""
      = .returned (some (.int (-2147483648))) "" ∧
    (-2147483648 : Int) ≠ 2147483648 := by
  decide

/-- The conversion of a whole `double` in the range of `int` gives that whole number. -/
theorem Double.toInt_intCast (i : Int) (h : inInt32 i) :
    Double.toInt (.finite (i : ℚ)) = some i := by
  unfold Double.toInt
  by_cases h0 : (0 : ℚ) ≤ (i : ℚ)
  · simp [h0, h]
  · simp [h0, h]

/-- A finite `double` is equal to its floor exactly when it is a whole number. -/
theorem Double.floor_eq_finite (q : ℚ) :
    (Double.floor (.finite q)).eq (.finite q) = true ↔ ((⌊q⌋ : Int) : ℚ) = q := by
  simp [Double.floor, Double.eq]

/-- Decoding against a Number column, for numbers in the range of `int`: a whole
number gives the integer Value of the same value, a number with a fractional part the
real Value. -/
theorem parse_number_in_range (column : ColumnDef) (error_message : String)
    (h : column.type = .Number) :
    (∀ n : Int, inInt32 n →
      parseProtoValueForColumn (.int_value n) column error_message
        = .returned (some (.int n)) error_message) ∧
    (∀ i : Int, inInt32 i →
      parseJsonValueForColumn (.number (.finite i)) column error_message
        = .returned (some (.int i)) error_message ∧
      parseProtoValueForColumn (.double_value (.finite i)) column error_message
        = .returned (some (.int i)) error_message) ∧
    (∀ q : ℚ, ((⌊q⌋ : Int) : ℚ) ≠ q →
      parseJsonValueForColumn (.number (.finite q)) column error_message
        = .returned (some (.double (.finite q))) error_message ∧
      parseProtoValueForColumn (.double_value (.finite q)) column error_message
        = .returned (some (.double (.finite q))) error_message) := by
  refine ⟨?_, ?_, ?_⟩
  · intro n hn
    simp [parseProtoValueForColumn, h, wrapInt32_of_inInt32 n hn]
  · intro i hi
    have hf : (Double.floor (.finite (i : ℚ))).eq (.finite (i : ℚ)) = true := by
      rw [Double.floor_eq_finite]
      simp
    simp [parseJsonValueForColumn, parseProtoValueForColumn, h, hf, Double.toInt_intCast i hi]
  · intro q hq
    have hf : ¬ (Double.floor (.finite q)).eq (.finite q) = true := by
      rw [Double.floor_eq_finite]
      exact hq
    simp [parseJsonValueForColumn, parseProtoValueForColumn, h, hf]

/-- Refutation of C6 as stated: on the column `salary` (Currency) of the seed table
`employees`, the proto int value 9007199254740993 (2^53 + 1) is decoded to the real
Value 9007199254740992, which is not the wire number. -/
theorem parseProto_currency_int64_rounded :
    findColumn seedEmployees "salary" = some salaryColumn ∧
    inInt64 9007199254740993 ∧
    parseProtoValueForColumn (.int_value 9007199254740993) salaryColumn ""
      = .returned (some (.double (.finite 9007199254740992))) "" ∧
    (9007199254740992 : ℚ) ≠ 9007199254740993 := by
  decide

/-- C6 (amended): against a Currency column every numeric wire value is accepted and
decoded to a real Value, never to an integer Value: a JSON number and a proto double
value to the real that is the wire number, a proto int value to the conversion of the
wire integer to `double`, which is the wire number whenever its absolute value is at
most 2^53. -/
theorem parse_currency_always_real (column : ColumnDef) (error_message : String)
    (h : column.type = .Currency) :
    (∀ d : Double, parseJsonValueForColumn (.number d) column error_message
      = .returned (some (.double d)) error_message) ∧
    (∀ d : Double, parseProtoValueForColumn (.double_value d) column error_message
      = .returned (some (.double d)) error_message) ∧
    (∀ n : Int, parseProtoValueForColumn (.int_value n) column error_message
      = .returned (some (.double (Double.ofInt64 n))) error_message) ∧
    (∀ n : Int, n.natAbs ≤ 9007199254740992 →
      parseProtoValueForColumn (.int_value n) column error_message
        = .returned (some (.double (.finite n))) error_message) := by
  refine ⟨?_, ?_, ?_, ?_⟩
  · intro d
    simp [parseJsonValueForColumn, h]
  · intro d
    simp [parseProtoValueForColumn, h]
  · intro n
    simp [parseProtoValueForColumn, h]
  · intro n hn
    simp [parseProtoValueForColumn, h, Double.ofInt64_exact n hn]

/-- Witness of C6: 42.0 against the Currency column `price` yields the real 42.0, the
same number against the Number column `qty` yields the integer 42, and the proto int
value 42 against `price` yields the real 42.0 as well. -/
theorem parse_currency_always_real_witness :
    parseJsonValueForColumn (.number (.finite 42)) priceColumn ""
      = .returned (some (.double (.finite 42))) "" ∧
    parseJsonValueForColumn (.number (.finite 42)) qtyColumn ""
      = .returned (some (.int 42)) "" ∧
    parseProtoValueForColumn (.int_value 42) priceColumn ""
      = .returned (some (.double (.finite ((42 : Int) : ℚ)))) "" :=
  ⟨(parse_currency_always_real priceColumn "" rfl).1 (.finite 42), by decide,
    (parse_currency_always_real priceColumn "" rfl).2.2.2 42 (by decide)⟩

/-- C7: under every column descriptor the explicit null marker (JSON null, proto
`null_value`) is decoded to the absent Value by both decode functions, and
`error_message` keeps the content it had. -/
theorem parse_null_is_absent (column : ColumnDef) (error_message : String) :
    parseJsonValueForColumn .null column error_message
      = .returned (some .null) error_message ∧
    parseProtoValueForColumn .null_value column error_message
      = .returned (some .null) error_message := by
  constructor
  · simp [parseJsonValueForColumn]
  · simp [parseProtoValueForColumn]

/-- C8: missing and null are kept apart in both directions. A proto value whose kind
is not set is rejected with "Value is missing" under every column descriptor; and
`toProtoValue` never produces a value whose kind is not set: it maps the absent Value
to the null kind and every other variant to the kind of that variant. -/
theorem missing_is_not_null (column : ColumnDef) (error_message : String) :
    parseProtoValueForColumn .kind_not_set column error_message
      = .returned none "Value is missing" ∧
    (∀ v : CellValue, toProtoValue v ≠ .kind_not_set) ∧
    toProtoValue .null = .null_value ∧
    (∀ s : String, toProtoValue (.string s) = .string_value s) ∧
    (∀ i : Int, toProtoValue (.int i) = .int_value i) ∧
    (∀ d : Double, toProtoValue (.double d) = .double_value d) ∧
    (∀ b : Bool, toProtoValue (.bool b) = .bool_value b) := by
  refine ⟨by simp [parseProtoValueForColumn], ?_, rfl, fun _ => rfl, fun _ => rfl,
    fun _ => rfl, fun _ => rfl⟩
  intro v
  cases v <;> simp [toProtoValue]

/-- C9: the two decode functions agree on corresponding wire inputs, under every
column descriptor: for the same text, the same boolean, the same number (JSON number
against proto double value) and null, both reject, or both return the same Value (or
both run into the same out-of-range conversion of a whole `double` to `int`). -/
theorem decoders_agree (column : ColumnDef) (m₁ m₂ : String) :
    (∀ s : String, (parseJsonValueForColumn (.string s) column m₁).result
      = (parseProtoValueForColumn (.string_value s) column m₂).result) ∧
    (∀ b : Bool, (parseJsonValueForColumn (.boolean b) column m₁).result
      = (parseProtoValueForColumn (.bool_value b) column m₂).result) ∧
    (∀ d : Double, (parseJsonValueForColumn (.number d) column m₁).result
      = (parseProtoValueForColumn (.double_value d) column m₂).result) ∧
    (parseJsonValueForColumn .null column m₁).result
      = (parseProtoValueForColumn .null_value column m₂).result := by
  refine ⟨?_, ?_, ?_, ?_⟩
  · intro s
    cases ht : column.type <;>
      simp [parseJsonValueForColumn, parseProtoValueForColumn, Decoded.result, ht]
  · intro b
    cases ht : column.type <;>
      simp [parseJsonValueForColumn, parseProtoValueForColumn, Decoded.result, ht]
  · intro d
    cases ht : column.type
    · simp [parseJsonValueForColumn, parseProtoValueForColumn, Decoded.result, ht]
    · simp only [parseJsonValueForColumn, parseProtoValueForColumn, ht]
      by_cases hf : (Double.floor d).eq d = true
      · cases hi : d.toInt <;> simp [hf, hi, Decoded.result]
      · simp [hf, Decoded.result]
    · simp [parseJsonValueForColumn, parseProtoValueForColumn, Decoded.result, ht]
    · simp [parseJsonValueForColumn, parseProtoValueForColumn, Decoded.result, ht]
  · simp [parseJsonValueForColumn, parseProtoValueForColumn, Decoded.result]

/-! ## Round trip: encode, then decode -/

/-- A Value that fits the column is returned unchanged by both round trips. -/
theorem roundTrip_of_fitsColumn (v : CellValue) (c : ColumnDef) (error_message : String)
    (h : CellValue.fitsColumn c.type v = true) :
    parseJsonValueForColumn (valueToJson v).read c error_message
      = .returned (some v) error_message ∧
    parseProtoValueForColumn (toProtoValue v) c error_message
      = .returned (some v) error_message := by
  cases v with
  | null => simp [valueToJson, WValue.read, toProtoValue, parseJsonValueForColumn,
      parseProtoValueForColumn]
  | string s =>
    cases ht : c.type <;>
      simp_all [CellValue.fitsColumn, valueToJson, WValue.read, toProtoValue,
        parseJsonValueForColumn, parseProtoValueForColumn]
  | bool b =>
    cases ht : c.type <;>
      simp_all [CellValue.fitsColumn, valueToJson, WValue.read, toProtoValue,
        parseJsonValueForColumn, parseProtoValueForColumn]
  | int i =>
    cases ht : c.type <;> simp_all [CellValue.fitsColumn]
    have hnum := (parse_number_in_range c error_message ht).1 i h
    have hdbl := ((parse_number_in_range c error_message ht).2.1 i h).1
    exact ⟨by simpa [valueToJson, WValue.read, Double.ofInt] using hdbl,
      by simpa [toProtoValue] using hnum⟩
  | double d =>
    cases ht : c.type <;>
      simp_all [CellValue.fitsColumn, valueToJson, WValue.read, toProtoValue,
        parseJsonValueForColumn, parseProtoValueForColumn]

/-- A whole finite `double` that converts to `int` is the `double` of that `int`. -/
theorem Double.eq_of_toInt (q : ℚ) (i : Int)
    (hf : (Double.floor (.finite q)).eq (.finite q) = true)
    (hi : Double.toInt (.finite q) = some i) : q = (i : ℚ) := by
  rw [Double.floor_eq_finite] at hf
  unfold Double.toInt at hi
  have hc : ((⌈q⌉ : Int) : ℚ) = q := by
    rw [← hf]
    simp
  by_cases h0 : (0 : ℚ) ≤ q
  · simp only [h0, if_true] at hi
    split at hi
    · simp only [Option.some.injEq] at hi
      rw [← hi, hf]
    · exact absurd hi (by simp)
  · simp only [h0, if_false] at hi
    split at hi
    · simp only [Option.some.injEq] at hi
      rw [← hi, hc]
    · exact absurd hi (by simp)

/-- The JSON round trip of any Value under any column returns `roundTripOutcome`. -/
theorem roundTrip_json (v : CellValue) (c : ColumnDef) (m m' : String) (v' : CellValue)
    (h : parseJsonValueForColumn (valueToJson v).read c m = .returned (some v') m') :
    roundTripOutcome c.type v v' := by
  unfold roundTripOutcome
  cases v with
  | null =>
    simp [valueToJson, WValue.read, parseJsonValueForColumn] at h
    exact Or.inl h.1.symm
  | string s =>
    cases ht : c.type <;>
      simp_all [valueToJson, WValue.read, parseJsonValueForColumn]
  | bool b =>
    cases ht : c.type <;>
      simp_all [valueToJson, WValue.read, parseJsonValueForColumn]
  | int i =>
    cases ht : c.type
    · simp_all [valueToJson, WValue.read, parseJsonValueForColumn]
    · have hf : (Double.floor (.finite (i : ℚ))).eq (.finite (i : ℚ)) = true := by
        rw [Double.floor_eq_finite]
        simp
      simp only [valueToJson, WValue.read, Double.ofInt, parseJsonValueForColumn, ht, hf,
        and_self, if_true] at h
      cases hi : Double.toInt (.finite (i : ℚ)) with
      | none => simp [hi] at h
      | some j =>
        simp only [hi, Decoded.returned.injEq, Option.some.injEq] at h
        have hq := Double.eq_of_toInt (i : ℚ) j hf hi
        have hij : i = j := by exact_mod_cast hq
        left
        rw [← h.1, hij]
    · simp [valueToJson, WValue.read, Double.ofInt, parseJsonValueForColumn, ht] at h
      right; left
      exact ⟨rfl, i, rfl, h.1.symm⟩
    · simp_all [valueToJson, WValue.read, parseJsonValueForColumn]
  | double d =>
    cases ht : c.type
    · simp_all [valueToJson, WValue.read, parseJsonValueForColumn]
    · simp only [valueToJson, WValue.read, parseJsonValueForColumn, ht, true_and] at h
      by_cases hf : (Double.floor d).eq d = true
      · simp only [hf, if_true] at h
        cases hi : d.toInt with
        | none => simp [hi] at h
        | some j =>
          simp only [hi, Decoded.returned.injEq, Option.some.injEq] at h
          cases d with
          | finite q =>
            have hq := Double.eq_of_toInt q j hf hi
            right; right
            exact ⟨rfl, j, by rw [hq], h.1.symm⟩
          | inf s => simp [Double.toInt] at hi
          | nan => simp [Double.toInt] at hi
      · simp only [hf] at h
        simp at h
        exact Or.inl h.1.symm
    · simp [valueToJson, WValue.read, parseJsonValueForColumn, ht] at h
      exact Or.inl h.1.symm
    · simp_all [valueToJson, WValue.read, parseJsonValueForColumn]

/-- The proto round trip of any well-formed Value under any column returns
`roundTripOutcome`. -/
theorem roundTrip_proto (v : CellValue) (c : ColumnDef) (m m' : String) (v' : CellValue)
    (hv : v.wellFormed)
    (h : parseProtoValueForColumn (toProtoValue v) c m = .returned (some v') m') :
    roundTripOutcome c.type v v' := by
  unfold roundTripOutcome
  cases v with
  | null =>
    simp [toProtoValue, parseProtoValueForColumn] at h
    exact Or.inl h.1.symm
  | string s =>
    cases ht : c.type <;> simp_all [toProtoValue, parseProtoValueForColumn]
  | bool b =>
    cases ht : c.type <;> simp_all [toProtoValue, parseProtoValueForColumn]
  | int i =>
    have hi : inInt32 i := hv
    cases ht : c.type
    · simp_all [toProtoValue, parseProtoValueForColumn]
    · simp [toProtoValue, parseProtoValueForColumn, ht, wrapInt32_of_inInt32 i hi] at h
      exact Or.inl h.1.symm
    · have hex : Double.ofInt64 i = .finite i := by
        apply Double.ofInt64_exact
        unfold inInt32 at hi
        omega
      simp [toProtoValue, parseProtoValueForColumn, ht, hex] at h
      right; left
      exact ⟨rfl, i, rfl, h.1.symm⟩
    · simp_all [toProtoValue, parseProtoValueForColumn]
  | double d =>
    cases ht : c.type
    · simp_all [toProtoValue, parseProtoValueForColumn]
    · simp only [toProtoValue, parseProtoValueForColumn, ht] at h
      by_cases hf : (Double.floor d).eq d = true
      · simp only [hf, if_true] at h
        cases hi : d.toInt with
        | none => simp [hi] at h
        | some j =>
          simp [hi] at h
          cases d with
          | finite q =>
            have hq := Double.eq_of_toInt q j hf hi
            right; right
            exact ⟨rfl, j, by rw [hq], h.1.symm⟩
          | inf s => simp [Double.toInt] at hi
          | nan => simp [Double.toInt] at hi
      · simp [hf] at h
        exact Or.inl h.1.symm
    · simp [toProtoValue, parseProtoValueForColumn, ht] at h
      exact Or.inl h.1.symm
    · simp_all [toProtoValue, parseProtoValueForColumn]

/-- Every cell of the constructed store other than the `salary` cells of `employees`
holds a Value that fits its column. -/
theorem seed_cells_fit :
    ∀ e ∈ DataStore.new.tables_, ∀ r ∈ e.2.rows, ∀ cell ∈ r.cells,
      ∀ c ∈ findColumn e.2 cell.1,
        (e.1 = "employees" ∧ cell.1 = "salary") ∨
          CellValue.fitsColumn c.type cell.2 = true := by
  decide

/-- Refutation of C10 as stated: the cell `salary` of row `1` of the seed table
`employees` holds the integer 500000; encoded and decoded against its own column
`salary` (Currency), in either wire format, it comes back as the real 500000.0, a
Value different from the stored one. -/
theorem roundTrip_seed_salary_differs :
    ((DataStore.new.getTable "employees").bind
      (fun t => (t.rows.find? (fun r => decide (r.id = "1"))).bind
        (fun r => StdMap.find r.cells "salary"))) = some (.int 500000) ∧
    (DataStore.new.getTable "employees").bind (fun t => findColumn t "salary")
      = some salaryColumn ∧
    parseJsonValueForColumn (valueToJson (.int 500000)).read salaryColumn ""
      = .returned (some (.double (.finite 500000))) "" ∧
    parseProtoValueForColumn (toProtoValue (.int 500000)) salaryColumn ""
      = .returned (some (.double (.finite 500000))) "" ∧
    CellValue.double (.finite 500000) ≠ CellValue.int 500000 := by
  decide

/-- C10 (amended): encoding a stored Value `v` to either wire format and decoding the
result against a column `c` yields, whenever decoding returns a Value, `v` itself,
except that an integer comes back from a Currency column as the real of the same
number and a real without fractional part comes back from a Number column as the
integer of the same number. In the constructed store every cell other than the
`salary` cells of `employees` comes back from its own column as the stored Value. -/
theorem roundTrip_up_to_coercion (v : CellValue) (c : ColumnDef) (m : String)
    (hv : v.wellFormed) :
    (∀ (v' : CellValue) (m' : String),
      parseJsonValueForColumn (valueToJson v).read c m = .returned (some v') m' →
      v' = v ∨
      (c.type = .Currency ∧ ∃ i : Int, v = .int i ∧ v' = .double (.finite i)) ∨
      (c.type = .Number ∧ ∃ i : Int, v = .double (.finite i) ∧ v' = .int i)) ∧
    (∀ (v' : CellValue) (m' : String),
      parseProtoValueForColumn (toProtoValue v) c m = .returned (some v') m' →
      v' = v ∨
      (c.type = .Currency ∧ ∃ i : Int, v = .int i ∧ v' = .double (.finite i)) ∨
      (c.type = .Number ∧ ∃ i : Int, v = .double (.finite i) ∧ v' = .int i)) ∧
    (∀ e ∈ DataStore.new.tables_, ∀ r ∈ e.2.rows, ∀ cell ∈ r.cells,
      ∀ col : ColumnDef, findColumn e.2 cell.1 = some col →
        ¬ (e.1 = "employees" ∧ cell.1 = "salary") →
        parseJsonValueForColumn (valueToJson cell.2).read col m
          = .returned (some cell.2) m ∧
        parseProtoValueForColumn (toProtoValue cell.2) col m
          = .returned (some cell.2) m) := by
  refine ⟨?_, ?_, ?_⟩
  · intro v' m' h
    exact roundTrip_json v c m m' v' h
  · intro v' m' h
    exact roundTrip_proto v c m m' v' hv h
  · intro e he r hr cell hcell col hcol hne
    rcases seed_cells_fit e he r hr cell hcell col hcol with hs | hfit
    · exact absurd hs hne
    · exact roundTrip_of_fitsColumn cell.2 col m hfit

/-- Witness of C10: the real 1800.0 stored in a `price` cell of `inventory` comes back
unchanged from the Currency column `price` in the proto format. -/
theorem roundTrip_up_to_coercion_witness :
    parseProtoValueForColumn (toProtoValue (.double (.finite 1800))) priceColumn ""
        = .returned (some (.double (.finite 1800))) "" ∧
    (CellValue.double (.finite 1800) = CellValue.double (.finite 1800) ∨
      (priceColumn.type = .Currency ∧ ∃ i : Int,
        CellValue.double (.finite 1800) = .int i ∧
        CellValue.double (.finite 1800) = .double (.finite i)) ∨
      (priceColumn.type = .Number ∧ ∃ i : Int,
        CellValue.double (.finite 1800) = .double (.finite i) ∧
        CellValue.double (.finite 1800) = .int i)) :=
  ⟨by decide,
    (roundTrip_up_to_coercion (.double (.finite 1800)) priceColumn "" trivial).2.1
      (.double (.finite 1800)) "" (by decide)⟩

/-! ## Reachable stores -/

/-- `updateCell` either returns the store it was given, or it found the table, an
editable non-primary column and the row, and returns the store with the table's rows
replaced. -/
theorem updateCell_cases (db : DataStore) (table_id row_id column_id : String)
    (value : CellValue) (error_message : String) :
    ((db.updateCell table_id row_id column_id value error_message).ok = false ∧
      (db.updateCell table_id row_id column_id value error_message).store = db) ∨
    ∃ (table : Table) (col : ColumnDef) (rows : List Row),
      StdMap.find db.tables_ table_id = some table ∧
      findColumn table column_id = some col ∧
      col.is_primary = false ∧ col.is_editable = true ∧
      assignCell table.rows row_id column_id value = some rows ∧
      (db.updateCell table_id row_id column_id value error_message).ok = true ∧
      (db.updateCell table_id row_id column_id value error_message).error_message
        = error_message ∧
      (db.updateCell table_id row_id column_id value error_message).store
        = ⟨StdMap.setAt db.tables_ table_id { table with rows := rows }⟩ := by
  unfold DataStore.updateCell findColumn
  cases hT : StdMap.find db.tables_ table_id with
  | none => exact Or.inl ⟨rfl, rfl⟩
  | some table =>
    cases hC : table.schema.find? (fun c => decide (c.id = column_id)) with
    | none => exact Or.inl (by simp [hC])
    | some col =>
      cases hp : col.is_primary with
      | true => exact Or.inl (by simp [hC, hp])
      | false =>
        cases he : col.is_editable with
        | false => exact Or.inl (by simp [hC, hp, he])
        | true =>
          cases hR : assignCell table.rows row_id column_id value with
          | none => exact Or.inl (by simp [hC, hp, he, hR])
          | some rows =>
            exact Or.inr ⟨table, col, rows, rfl, hC, hp, he, hR, by simp [hC, hp, he, hR]⟩

theorem StdMap.mem_of_find {V : Type} (m : StdMap V) (k : String) (v : V)
    (h : StdMap.find m k = some v) : (k, v) ∈ m := by
  induction m with
  | nil => simp [StdMap.find] at h
  | cons e m ih =>
    obtain ⟨k', v'⟩ := e
    unfold StdMap.find at h
    by_cases hk : k' = k
    · rw [if_pos hk, Option.some.injEq] at h
      simp [hk, h]
    · rw [if_neg hk] at h
      exact List.mem_cons_of_mem _ (ih h)

theorem StdMap.mem_setAt {V : Type} (m : StdMap V) (k : String) (v : V) (e : String × V)
    (h : e ∈ StdMap.setAt m k v) : e ∈ m ∨ e = (k, v) := by
  induction m with
  | nil => simp [StdMap.setAt] at h
  | cons e' m ih =>
    obtain ⟨k', v'⟩ := e'
    unfold StdMap.setAt at h
    by_cases hk : k' = k
    · rw [if_pos hk] at h
      rcases List.mem_cons.1 h with h | h
      · right; rw [h, hk]
      · left; exact List.mem_cons_of_mem _ h
    · rw [if_neg hk] at h
      rcases List.mem_cons.1 h with h | h
      · left; rw [h]; exact List.mem_cons_self _ _
      · rcases ih h with h | h
        · left; exact List.mem_cons_of_mem _ h
        · right; exact h

theorem StdMap.mem_assign {V : Type} (m : StdMap V) (k : String) (v : V) (e : String × V)
    (h : e ∈ StdMap.assign m k v) : e ∈ m ∨ e = (k, v) := by
  induction m with
  | nil =>
    simp only [StdMap.assign, List.mem_singleton] at h
    exact Or.inr h
  | cons e' m ih =>
    obtain ⟨k', v'⟩ := e'
    unfold StdMap.assign at h
    by_cases hk : k' = k
    · rw [if_pos hk] at h
      rcases List.mem_cons.1 h with h | h
      · right; rw [h, hk]
      · left; exact List.mem_cons_of_mem _ h
    · rw [if_neg hk] at h
      by_cases hlt : stringLess k k' = true
      · rw [if_pos hlt] at h
        rcases List.mem_cons.1 h with h | h
        · right; exact h
        · left; exact h
      · rw [if_neg hlt] at h
        rcases List.mem_cons.1 h with h | h
        · left; rw [h]; exact List.mem_cons_self _ _
        · rcases ih h with h | h
          · left; exact List.mem_cons_of_mem _ h
          · right; exact h

theorem findColumn_some (table : Table) (column_id : String) (col : ColumnDef)
    (h : findColumn table column_id = some col) : col ∈ table.schema ∧ col.id = column_id := by
  unfold findColumn at h
  exact ⟨List.mem_of_find?_eq_some h, by simpa using List.find?_some h⟩

theorem assignCell_map_id (rows rows' : List Row) (row_id column_id : String)
    (value : CellValue) (h : assignCell rows row_id column_id value = some rows') :
    rows'.map Row.id = rows.map Row.id ∧
    rows'.map Row.parent_id = rows.map Row.parent_id := by
  induction rows generalizing rows' with
  | nil => simp [assignCell] at h
  | cons r rows ih =>
    unfold assignCell at h
    by_cases hr : r.id = row_id
    · rw [if_pos hr, Option.some.injEq] at h
      subst h
      simp
    · rw [if_neg hr, Option.map_eq_some'] at h
      obtain ⟨rows₁, h₁, rfl⟩ := h
      simp [ih rows₁ h₁]

theorem assignCell_mem (rows rows' : List Row) (row_id column_id : String)
    (value : CellValue) (h : assignCell rows row_id column_id value = some rows')
    (r' : Row) (hr' : r' ∈ rows') :
    r' ∈ rows ∨ ∃ r ∈ rows, r.id = row_id ∧
      r' = { r with cells := StdMap.assign r.cells column_id value } := by
  induction rows generalizing rows' with
  | nil => simp [assignCell] at h
  | cons r rows ih =>
    unfold assignCell at h
    by_cases hr : r.id = row_id
    · rw [if_pos hr, Option.some.injEq] at h
      subst h
      rcases List.mem_cons.1 hr' with h | h
      · right
        exact ⟨r, List.mem_cons_self _ _, hr, h⟩
      · left
        exact List.mem_cons_of_mem _ h
    · rw [if_neg hr, Option.map_eq_some'] at h
      obtain ⟨rows₁, h₁, rfl⟩ := h
      rcases List.mem_cons.1 hr' with h | h
      · left
        rw [h]
        exact List.mem_cons_self _ _
      · rcases ih rows₁ h₁ h with h | ⟨r₀, hr₀, hid, heq⟩
        · left
          exact List.mem_cons_of_mem _ h
        · right
          exact ⟨r₀, List.mem_cons_of_mem _ hr₀, hid, heq⟩

/-- A property of tables that survives the replacement of the rows made by a
successful `updateCell` holds for every table after any call, if it held before. -/
theorem updateCell_preserves (P : Table → Prop)
    (hP : ∀ (table : Table) (col : ColumnDef) (rows : List Row)
      (row_id column_id : String) (value : CellValue), P table →
      findColumn table column_id = some col →
      col.is_primary = false → col.is_editable = true →
      assignCell table.rows row_id column_id value = some rows →
      P { table with rows := rows })
    (db : DataStore) (table_id row_id column_id : String) (value : CellValue)
    (error_message : String) (h : ∀ e ∈ db.tables_, P e.2) :
    ∀ e ∈ (db.updateCell table_id row_id column_id value error_message).store.tables_,
      P e.2 := by
  rcases updateCell_cases db table_id row_id column_id value error_message with
    ⟨_, hs⟩ | ⟨table, col, rows, hT, hC, hp, he, hR, _, _, hs⟩
  · rw [hs]
    exact h
  · rw [hs]
    intro e hmem
    rcases StdMap.mem_setAt _ _ _ _ hmem with hmem | hmem
    · exact h e hmem
    · rw [hmem]
      exact hP table col rows row_id column_id value
        (h _ (StdMap.mem_of_find _ _ _ hT)) hC hp he hR

/-- The same for every sequence of calls. -/
theorem run_preserves (P : Table → Prop)
    (hP : ∀ (table : Table) (col : ColumnDef) (rows : List Row)
      (row_id column_id : String) (value : CellValue), P table →
      findColumn table column_id = some col →
      col.is_primary = false → col.is_editable = true →
      assignCell table.rows row_id column_id value = some rows →
      P { table with rows := rows })
    (calls : List UpdateCall) (db : DataStore) (h : ∀ e ∈ db.tables_, P e.2) :
    ∀ e ∈ (db.run calls).tables_, P e.2 := by
  induction calls generalizing db with
  | nil => exact h
  | cons c cs ih =>
    unfold DataStore.run
    exact ih _ (updateCell_preserves P hP db c.table_id c.row_id c.column_id c.value
      c.error_message h)

/-- C13: end to end on the constructed store. The number 600000 decoded against the
Currency column `salary` of `employees` (JSON number, proto int value, proto double
value) is the real 600000.0; `updateCell` with it on row `1` succeeds and row `1`
then holds the real 600000.0 as salary, not an integer. The text `99` decoded against
the primary column `id` is the text `99`; `updateCell` with it on row `1` fails with
"Primary key column is read-only" and returns the store unchanged: the row ids are the
same and the stored `id` cell of row `1` is still the text `1`. -/
theorem seed_salary_update_and_id_rejection :
    (DataStore.new.getTable "employees").bind (fun t => findColumn t "salary")
      = some salaryColumn ∧
    salaryColumn.type = .Currency ∧ salaryColumn.is_editable = true ∧
    parseJsonValueForColumn (.number (.finite 600000)) salaryColumn ""
      = .returned (some (.double (.finite 600000))) "" ∧
    parseProtoValueForColumn (.int_value 600000) salaryColumn ""
      = .returned (some (.double (.finite 600000))) "" ∧
    parseProtoValueForColumn (.double_value (.finite 600000)) salaryColumn ""
      = .returned (some (.double (.finite 600000))) "" ∧
    (DataStore.new.updateCell "employees" "1" "salary" (.double (.finite 600000)) "").ok
      = true ∧
    (DataStore.new.updateCell "employees" "1" "salary" (.double (.finite 600000))
      "").store.cell "employees" "1" "salary" = some (.double (.finite 600000)) ∧
    CellValue.double (.finite 600000) ≠ CellValue.int 600000 ∧
    (DataStore.new.getTable "employees").bind (fun t => findColumn t "id")
      = some idColumn ∧
    idColumn.type = .String ∧ idColumn.is_primary = true ∧
    parseJsonValueForColumn (.string "99") idColumn "" = .returned (some (.string "99")) "" ∧
    parseProtoValueForColumn (.string_value "99") idColumn ""
      = .returned (some (.string "99")) "" ∧
    (DataStore.new.updateCell "employees" "1" "id" (.string "99") "").ok = false ∧
    (DataStore.new.updateCell "employees" "1" "id" (.string "99") "").error_message
      = "Primary key column is read-only" ∧
    (DataStore.new.updateCell "employees" "1" "id" (.string "99") "").store = DataStore.new ∧
    ((DataStore.new.updateCell "employees" "1" "id" (.string "99") "").store.getTable
      "employees").map (fun t => t.rows.map Row.id) = some ["1", "2", "3", "4", "5", "6"] ∧
    (DataStore.new.updateCell "employees" "1" "id" (.string "99") "").store.cell
      "employees" "1" "id" = some (.string "1") := by
  decide

/-- Refutation of C17 as stated: in the constructed store (no call made yet) the
table `employees` has the non-empty parent_key `pid`, which is not the id of any
column of its schema. -/
theorem seed_parent_key_not_in_schema :
    ∃ e ∈ (DataStore.new.run []).tables_,
      e.1 = "employees" ∧ e.2.parent_key = "pid" ∧ e.2.parent_key ≠ "" ∧
      e.2.parent_key ∉ e.2.columnIds := by
  decide

/-- C17 (amended): in every reachable store (the constructed store after any finite
sequence of `updateCell` calls) every table's primary_key is the id of a column of its
schema, and every table's parent_key is a non-empty name that is not the id of any
column of its schema. -/
theorem reachable_keys (calls : List UpdateCall) :
    ∀ e ∈ (DataStore.new.run calls).tables_,
      e.2.primary_key ∈ e.2.columnIds ∧ e.2.parent_key ≠ "" ∧
      e.2.parent_key ∉ e.2.columnIds := by
  apply run_preserves
    (fun t => t.primary_key ∈ t.columnIds ∧ t.parent_key ≠ "" ∧ t.parent_key ∉ t.columnIds)
  · intro table col rows row_id column_id value h _ _ _ _
    exact h
  · decide

/-- Witness of C17: the table `employees` after an update of a salary. -/
theorem reachable_keys_witness :
    ∃ t : Table,
      (DataStore.new.run [⟨"employees", "1", "salary", .double (.finite 600000), ""⟩]).getTable
        "employees" = some t ∧
      t.primary_key ∈ t.columnIds ∧ t.parent_key ≠ "" ∧ t.parent_key ∉ t.columnIds :=
  match h : (DataStore.new.run
      [⟨"employees", "1", "salary", .double (.finite 600000), ""⟩]).getTable "employees" with
  | some t =>
    ⟨t, rfl, reachable_keys [⟨"employees", "1", "salary", .double (.finite 600000), ""⟩]
      ("employees", t) (StdMap.mem_of_find _ _ _ h)⟩
  | none => absurd h (by decide)

/-- The replacement of the rows made by a successful `updateCell` keeps the keys of
all cells inside the schema and the row ids distinct. -/
theorem assignCell_keeps_invariants (table : Table) (col : ColumnDef) (rows : List Row)
    (row_id column_id : String) (value : CellValue)
    (h : table.cellsInSchema ∧ table.rowIdsDistinct)
    (hC : findColumn table column_id = some col)
    (hR : assignCell table.rows row_id column_id value = some rows) :
    Table.cellsInSchema { table with rows := rows } ∧
    Table.rowIdsDistinct { table with rows := rows } := by
  constructor
  · intro r' hr' cell hcell
    rcases assignCell_mem table.rows rows row_id column_id value hR r' hr' with
      hold | ⟨r, hr, _, heq⟩
    · exact h.1 r' hold cell hcell
    · rw [heq] at hcell
      rcases StdMap.mem_assign _ _ _ _ hcell with hc | hc
      · exact h.1 r hr cell hc
      · have hcol := findColumn_some table column_id col hC
        rw [hc]
        exact List.mem_map.2 ⟨col, hcol.1, hcol.2⟩
  · have hid := (assignCell_map_id table.rows rows row_id column_id value hR).1
    unfold Table.rowIdsDistinct
    simpa [hid] using h.2

/-- C18: in the constructed store every key of every row's `cells` is the id of a
column of the table's schema and the row ids of each table are pairwise distinct;
every `updateCell` call, successful or not, preserves both on any store; hence both
hold in every reachable store. -/
theorem reachable_cells_in_schema_and_distinct_ids :
    (∀ e ∈ DataStore.new.tables_, e.2.cellsInSchema ∧ e.2.rowIdsDistinct) ∧
    (∀ (db : DataStore) (table_id row_id column_id : String) (value : CellValue)
      (error_message : String),
      (∀ e ∈ db.tables_, e.2.cellsInSchema ∧ e.2.rowIdsDistinct) →
      ∀ e ∈ (db.updateCell table_id row_id column_id value error_message).store.tables_,
        e.2.cellsInSchema ∧ e.2.rowIdsDistinct) ∧
    (∀ calls : List UpdateCall, ∀ e ∈ (DataStore.new.run calls).tables_,
      e.2.cellsInSchema ∧ e.2.rowIdsDistinct) := by
  have hP : ∀ (table : Table) (col : ColumnDef) (rows : List Row)
      (row_id column_id : String) (value : CellValue),
      (table.cellsInSchema ∧ table.rowIdsDistinct) →
      findColumn table column_id = some col →
      col.is_primary = false → col.is_editable = true →
      assignCell table.rows row_id column_id value = some rows →
      (Table.cellsInSchema { table with rows := rows } ∧
        Table.rowIdsDistinct { table with rows := rows }) := by
    intro table col rows row_id column_id value h hC _ _ hR
    exact assignCell_keeps_invariants table col rows row_id column_id value h hC hR
  have h0 : ∀ e ∈ DataStore.new.tables_, e.2.cellsInSchema ∧ e.2.rowIdsDistinct := by
    decide
  refine ⟨h0, ?_, ?_⟩
  · intro db table_id row_id column_id value error_message h
    exact updateCell_preserves (fun t => t.cellsInSchema ∧ t.rowIdsDistinct) hP db
      table_id row_id column_id value error_message h
  · intro calls
    exact run_preserves (fun t => t.cellsInSchema ∧ t.rowIdsDistinct) hP calls
      DataStore.new h0

/-- Witness of C18: the table `inventory` after an update that adds nothing new and
one that is rejected. -/
theorem reachable_cells_in_schema_and_distinct_ids_witness :
    ∃ t : Table,
      (DataStore.new.run [⟨"inventory", "101", "qty", .int 44, ""⟩,
        ⟨"inventory", "101", "colour", .string "red", ""⟩]).getTable "inventory" = some t ∧
      t.cellsInSchema ∧ t.rowIdsDistinct :=
  match h : (DataStore.new.run [⟨"inventory", "101", "qty", .int 44, ""⟩,
      ⟨"inventory", "101", "colour", .string "red", ""⟩]).getTable "inventory" with
  | some t =>
    ⟨t, rfl, reachable_cells_in_schema_and_distinct_ids.2.2
      [⟨"inventory", "101", "qty", .int 44, ""⟩,
        ⟨"inventory", "101", "colour", .string "red", ""⟩]
      ("inventory", t) (StdMap.mem_of_find _ _ _ h)⟩
  | none => absurd h (by decide)

/-- C19: in the constructed store (no call made yet) the table `inventory` has the
primary key column `sku`, and its row with id `100` stores the text `ELEC-001` in the
cell `sku`: the row's id is not the text of its primary-key cell. The same holds for
the other four rows of `inventory`. -/
theorem seed_inventory_row_id_differs_from_key_cell :
    ((DataStore.new.run []).getTable "inventory").map Table.primary_key = some "sku" ∧
    ((DataStore.new.run []).getTable "inventory").map (fun t => t.rows.map Row.id)
      = some ["100", "101", "102", "200", "201"] ∧
    (DataStore.new.run []).cell "inventory" "100" "sku" = some (.string "ELEC-001") ∧
    (DataStore.new.run []).cell "inventory" "101" "sku" = some (.string "CPU-INT-9") ∧
    (DataStore.new.run []).cell "inventory" "102" "sku" = some (.string "GPU-NV-40") ∧
    (DataStore.new.run []).cell "inventory" "200" "sku" = some (.string "FURN-001") ∧
    (DataStore.new.run []).cell "inventory" "201" "sku" = some (.string "CH-OFF-B") ∧
    CellValue.string "ELEC-001" ≠ CellValue.string "100" := by
  decide

/-- In every reachable store the rows of `employees` do satisfy the property of C19:
each row's id is the text stored in its cell of the primary-key column, which no
`updateCell` call can write. -/
theorem reachable_employees_row_ids (calls : List UpdateCall) :
    ∀ e ∈ (DataStore.new.run calls).tables_,
      (∃ c, findColumn e.2 e.2.primary_key = some c ∧ c.is_primary = true) ∧
      (e.2.id = "employees" → ∀ r ∈ e.2.rows,
        StdMap.find r.cells e.2.primary_key = some (.string r.id)) := by
  apply run_preserves (fun t =>
    (∃ c, findColumn t t.primary_key = some c ∧ c.is_primary = true) ∧
    (t.id = "employees" → ∀ r ∈ t.rows,
      StdMap.find r.cells t.primary_key = some (.string r.id)))
  · intro table col rows row_id column_id value h hC hp _ hR
    obtain ⟨⟨c, hc, hcp⟩, hrows⟩ := h
    have hne : table.primary_key ≠ column_id := by
      intro heq
      rw [heq, hC, Option.some.injEq] at hc
      rw [hc, hcp] at hp
      exact absurd hp (by simp)
    refine ⟨⟨c, hc, hcp⟩, ?_⟩
    intro hid r' hr'
    rcases assignCell_mem table.rows rows row_id column_id value hR r' hr' with
      hold | ⟨r, hr, _, heq⟩
    · exact hrows hid r' hold
    · rw [heq]
      simp only []
      rw [StdMap.find_assign_ne r.cells column_id table.primary_key value hne]
      exact hrows hid r hr
  · decide

/-! ## The encoders of the read path -/

theorem WValue.find?_updMember (ms : List (String × WValue)) (key k : String)
    (f : WValue → WValue) :
    ((WValue.updMember ms key f).find? (fun m => decide (m.1 = k))).map Prod.snd =
      if k = key then
        some (f (((ms.find? (fun m => decide (m.1 = key))).map Prod.snd).getD .null))
      else (ms.find? (fun m => decide (m.1 = k))).map Prod.snd := by
  induction ms with
  | nil =>
    by_cases hk : k = key
    · simp [WValue.updMember, hk]
    · simp [WValue.updMember, hk, Ne.symm hk]
  | cons m ms ih =>
    obtain ⟨k', v⟩ := m
    unfold WValue.updMember
    by_cases h1 : k' = key
    · subst h1
      by_cases hk : k = k'
      · simp [hk]
      · simp [hk, Ne.symm hk]
    · by_cases hk : k = key
      · subst hk
        simp [h1, ih]
      · by_cases h2 : k' = k
        · simp [h1, h2, hk]
        · simp [h1, h2, hk, ih]

/-- The member under `k` after `w[key]` was written through. -/
theorem WValue.member?_atKey (w : WValue) (key k : String) (f : WValue → WValue) :
    (w.atKey key f).member? k =
      if k = key then some (f ((w.member? key).getD .null)) else w.member? k := by
  cases w with
  | object members => exact WValue.find?_updMember members key k f
  | null => simpa [WValue.atKey, WValue.member?] using WValue.find?_updMember [] key k f
  | boolean b => simpa [WValue.atKey, WValue.member?] using WValue.find?_updMember [] key k f
  | int i => simpa [WValue.atKey, WValue.member?] using WValue.find?_updMember [] key k f
  | double d => simpa [WValue.atKey, WValue.member?] using WValue.find?_updMember [] key k f
  | string s => simpa [WValue.atKey, WValue.member?] using WValue.find?_updMember [] key k f
  | list l => simpa [WValue.atKey, WValue.member?] using WValue.find?_updMember [] key k f

/-- The items after `w[index]` was written through. -/
theorem WValue.items_atIndex (w : WValue) (index : Nat) (f : WValue → WValue) :
    (w.atIndex index f).items = WValue.updItem w.items index f := by
  cases w <;> rfl

theorem WValue.updItem_updItem (xs : List WValue) (i : Nat) (f g : WValue → WValue) :
    WValue.updItem (WValue.updItem xs i f) i g = WValue.updItem xs i (fun w => g (f w)) := by
  induction xs generalizing i with
  | nil =>
    induction i with
    | zero => rfl
    | succ i ih => simp [WValue.updItem, ih]
  | cons x xs ih =>
    cases i with
    | zero => rfl
    | succ i => simp [WValue.updItem, ih]

theorem WValue.updItem_length (xs : List WValue) (f : WValue → WValue) :
    WValue.updItem xs xs.length f = xs ++ [f .null] := by
  induction xs with
  | nil => rfl
  | cons x xs ih => simp [WValue.updItem, ih]

/-- One statement `payload["columns"][i][key] = v` acts on the encoded columns only. -/
theorem jsonColumns_assign3 (payload : WValue) (i : Nat) (key : String) (v : WValue) :
    jsonColumns (payload.assign3 "columns" i key v) =
      WValue.updItem (jsonColumns payload) i (fun item => item.atKey key (fun _ => v)) := by
  unfold jsonColumns WValue.assign3
  rw [WValue.member?_atKey]
  simp [WValue.items_atIndex]

/-- The encoded column that the eight statements of one iteration build. -/
theorem jsonColumns_columns (cols : List ColumnDef) (i : Nat) (payload : WValue)
    (h : (jsonColumns payload).length = i) :
    jsonColumns (buildSchemaJson.columns cols i payload) =
      jsonColumns payload ++ cols.map (fun c => WValue.object [
        ("id", .string c.id), ("title", .string c.title),
        ("type", .string (toString c.type)), ("width", .int c.width),
        ("isTreeColumn", .boolean c.is_tree), ("isPinned", .boolean c.is_pinned),
        ("isEditable", .boolean (c.is_editable && !c.is_primary)),
        ("isPrimary", .boolean c.is_primary)]) := by
  induction cols generalizing i payload with
  | nil => simp [buildSchemaJson.columns]
  | cons c cols ih =>
    unfold buildSchemaJson.columns
    simp only []
    rw [ih]
    · simp only [jsonColumns_assign3, WValue.updItem_updItem]
      rw [← h, WValue.updItem_length]
      simp [WValue.atKey, WValue.updMember]
    · simp only [jsonColumns_assign3, WValue.updItem_updItem]
      rw [← h, WValue.updItem_length]
      simp

theorem fillProtoSchema_columns (cols : List ColumnDef) (schema : ProtoTableSchema) :
    (fillProtoSchema.columns cols schema).columns =
      schema.columns ++ cols.map (fun c => {
        id := c.id, title := c.title, type := toProtoColumnType c.type, width := c.width,
        is_tree := c.is_tree, is_pinned := c.is_pinned,
        is_editable := c.is_editable && !c.is_primary, is_primary := c.is_primary }) := by
  induction cols generalizing schema with
  | nil => simp [fillProtoSchema.columns]
  | cons c cols ih =>
    unfold fillProtoSchema.columns
    rw [ih]
    simp

/-- The encoded columns of `buildSchemaJson`, one object per column of the schema. -/
theorem jsonColumns_buildSchemaJson (table : Table) :
    jsonColumns (buildSchemaJson table) =
      table.schema.map (fun c => WValue.object [
        ("id", .string c.id), ("title", .string c.title),
        ("type", .string (toString c.type)), ("width", .int c.width),
        ("isTreeColumn", .boolean c.is_tree), ("isPinned", .boolean c.is_pinned),
        ("isEditable", .boolean (c.is_editable && !c.is_primary)),
        ("isPrimary", .boolean c.is_primary)]) := by
  have h0 : jsonColumns ((((WValue.null.assign1 "tableId" (.string table.id)).assign1
      "name" (.string table.name)).assign1 "primaryKey"
      (.string table.primary_key)).assign1 "parentKey" (.string table.parent_key))
      = [] := by
    simp only [jsonColumns, WValue.assign1, WValue.member?_atKey]
    simp [WValue.member?, WValue.items]
  unfold buildSchemaJson
  simp only []
  rw [jsonColumns_columns _ _ _ (by rw [h0]; rfl), h0]
  simp

/-- The columns that `fillProtoSchema` adds to a fresh message. -/
theorem fillProtoSchema_empty_columns (table : Table) :
    (fillProtoSchema table ProtoTableSchema.empty).columns =
      table.schema.map (fun c => {
        id := c.id, title := c.title, type := toProtoColumnType c.type, width := c.width,
        is_tree := c.is_tree, is_pinned := c.is_pinned,
        is_editable := c.is_editable && !c.is_primary, is_primary := c.is_primary }) := by
  unfold fillProtoSchema
  rw [fillProtoSchema_columns]
  simp [ProtoTableSchema.empty]

/-- C11: for every table both schema encoders produce one encoded column per column of
the schema, in schema order; the encoded column carries the id, title, type (as the
name given by `toString`, as the enum value given by `toProtoColumnType`; both
encodings tell the four types apart), width, is_tree, is_pinned and is_primary of the
column unchanged, and as its `is editable` flag the value `is_editable && !is_primary`,
so that every column encoded as primary is encoded as not editable. -/
theorem schema_encoders_expose_columns (table : Table) :
    (jsonColumns (buildSchemaJson table)).map (fun w =>
        (w.member? "id", w.member? "title", w.member? "type", w.member? "width",
          w.member? "isTreeColumn", w.member? "isPinned", w.member? "isEditable",
          w.member? "isPrimary")) =
      table.schema.map (fun c =>
        (some (WValue.string c.id), some (WValue.string c.title),
          some (WValue.string (toString c.type)), some (WValue.int c.width),
          some (WValue.boolean c.is_tree), some (WValue.boolean c.is_pinned),
          some (WValue.boolean (c.is_editable && !c.is_primary)),
          some (WValue.boolean c.is_primary))) ∧
    (fillProtoSchema table ProtoTableSchema.empty).columns =
      table.schema.map (fun c => {
        id := c.id, title := c.title, type := toProtoColumnType c.type, width := c.width,
        is_tree := c.is_tree, is_pinned := c.is_pinned,
        is_editable := c.is_editable && !c.is_primary, is_primary := c.is_primary }) ∧
    Function.Injective toString ∧ Function.Injective toProtoColumnType ∧
    (∀ w ∈ jsonColumns (buildSchemaJson table),
      w.member? "isPrimary" = some (.boolean true) →
      w.member? "isEditable" = some (.boolean false)) ∧
    (∀ c ∈ (fillProtoSchema table ProtoTableSchema.empty).columns,
      c.is_primary = true → c.is_editable = false) := by
  refine ⟨?_, fillProtoSchema_empty_columns table, ?_, ?_, ?_, ?_⟩
  · rw [jsonColumns_buildSchemaJson]
    simp [WValue.member?]
  · intro a b h
    cases a <;> cases b <;> first | rfl | exact absurd h (by decide)
  · intro a b h
    cases a <;> cases b <;> first | rfl | exact absurd h (by decide)
  · intro w hw hp
    rw [jsonColumns_buildSchemaJson] at hw
    obtain ⟨c, _, rfl⟩ := List.mem_map.1 hw
    simp [WValue.member?] at hp ⊢
    simp [hp]
  · intro c hc hp
    rw [fillProtoSchema_empty_columns] at hc
    obtain ⟨c₀, _, rfl⟩ := List.mem_map.1 hc
    simp only [] at hp ⊢
    simp [hp]

/-- Witness of C11 on `sampleTable`, whose primary column `id` is stored as editable:
both encoders expose it as not editable. -/
theorem schema_encoders_expose_columns_witness :
    sampleStore.getTable "t" = some sampleTable ∧
    (findColumn sampleTable "id").map (fun c => (c.is_editable, c.is_primary))
      = some (true, true) ∧
    ((fillProtoSchema sampleTable ProtoTableSchema.empty).columns.head?).map
      (fun c => (c.id, c.is_editable)) = some ("id", false) ∧
    (WValue.object [
        ("id", .string "id"), ("title", .string "ID"),
        ("type", .string "string"), ("width", .int 10),
        ("isTreeColumn", .boolean false), ("isPinned", .boolean false),
        ("isEditable", .boolean false),
        ("isPrimary", .boolean true)]).member? "isEditable" = some (.boolean false) :=
  ⟨by decide, by decide, by decide,
    (schema_encoders_expose_columns sampleTable).2.2.2.2.1 _
      (by rw [jsonColumns_buildSchemaJson]; exact List.mem_cons_self _ _) rfl⟩

theorem WValue.updItem_append_singleton (xs : List WValue) (w : WValue)
    (f : WValue → WValue) :
    WValue.updItem (xs ++ [w]) xs.length f = xs ++ [f w] := by
  induction xs with
  | nil => rfl
  | cons x xs ih => simp [WValue.updItem, ih]

/-- The inner loop of `buildRowsJson` acts on the item of the current row only. -/
theorem buildRowsJson_cells_items (cells : List (String × CellValue)) (xs : List WValue)
    (w payload : WValue) (h : payload.items = xs ++ [w]) :
    (buildRowsJson.cells cells xs.length payload).items =
      xs ++ [cells.foldl (fun w cell => w.atKey cell.1 (fun _ => valueToJson cell.2)) w] := by
  induction cells generalizing w payload with
  | nil => simpa [buildRowsJson.cells] using h
  | cons cell cells ih =>
    obtain ⟨key, value⟩ := cell
    unfold buildRowsJson.cells
    rw [ih (w.atKey key (fun _ => valueToJson value))]
    · simp
    · simp only [WValue.assign2]
      rw [WValue.items_atIndex, h, WValue.updItem_append_singleton]

/-- The loop of `buildRowsJson` appends one record per row. -/
theorem buildRowsJson_rows_items (table : Table) (rows : List Row) (xs : List WValue)
    (payload : WValue) (h : payload.items = xs) :
    (buildRowsJson.rows table rows xs.length payload).items =
      xs ++ rows.map (buildRowsJson.record table) := by
  induction rows generalizing xs payload with
  | nil => simpa [buildRowsJson.rows] using h
  | cons row rows ih =>
    unfold buildRowsJson.rows
    simp only []
    have h1 : (payload.assign2 xs.length table.primary_key (.string row.id)).items =
        xs ++ [WValue.null.atKey table.primary_key (fun _ => .string row.id)] := by
      simp only [WValue.assign2]
      rw [WValue.items_atIndex, h, WValue.updItem_length]
    have hstep : ∀ (p : WValue) (w : WValue) (key : String) (v : WValue),
        p.items = xs ++ [w] →
        (p.assign2 xs.length key v).items = xs ++ [w.atKey key (fun _ => v)] := by
      intro p w key v hp
      simp only [WValue.assign2]
      rw [WValue.items_atIndex, hp, WValue.updItem_append_singleton]
    have hlen : (xs ++ [buildRowsJson.record table row]).length = xs.length + 1 := by simp
    rw [← hlen]
    rw [ih (xs ++ [buildRowsJson.record table row])]
    · simp
    · unfold buildRowsJson.record
      simp only []
      by_cases hpk : table.parent_key ≠ ""
      · rw [if_pos hpk, if_pos hpk]
        cases row.parent_id with
        | none => exact buildRowsJson_cells_items row.cells xs _ _ (hstep _ _ _ _ h1)
        | some parent => exact buildRowsJson_cells_items row.cells xs _ _ (hstep _ _ _ _ h1)
      · rw [if_neg hpk, if_neg hpk]
        exact buildRowsJson_cells_items row.cells xs _ _ h1

/-- The payload of `buildRowsJson` is the list of the records of the rows, in order. -/
theorem buildRowsJson_items (table : Table) :
    (buildRowsJson table).items = table.rows.map (buildRowsJson.record table) := by
  have h := buildRowsJson_rows_items table table.rows [] .null rfl
  simpa [buildRowsJson] using h

/-- After the cells of a row were written into an item, the member under a key is the
encoding of the cell stored under that key, or what the item had before if the row
stores no such cell. -/
theorem member?_foldl_cells (cells : List (String × CellValue)) (w : WValue) (k : String)
    (hkeys : (cells.map Prod.fst).Nodup) :
    (cells.foldl (fun w cell => w.atKey cell.1 (fun _ => valueToJson cell.2)) w).member? k =
      match StdMap.find cells k with
      | some v => some (valueToJson v)
      | none => w.member? k := by
  induction cells generalizing w with
  | nil => simp [StdMap.find]
  | cons cell cells ih =>
    obtain ⟨key, value⟩ := cell
    simp only [List.map_cons, List.nodup_cons] at hkeys
    simp only [List.foldl_cons]
    rw [ih _ hkeys.2]
    have hcons : StdMap.find ((key, value) :: cells) k =
        if key = k then some value else StdMap.find cells k := rfl
    rw [hcons]
    by_cases hk : key = k
    · subst hk
      have hnone : StdMap.find cells key = none := by
        cases hf : StdMap.find cells key with
        | none => rfl
        | some v =>
          exact absurd (List.mem_map.2 ⟨(key, v), StdMap.mem_of_find _ _ _ hf, rfl⟩) hkeys.1
      simp [hnone, WValue.member?_atKey]
    · rw [if_neg hk]
      cases hf : StdMap.find cells k with
      | none => simp [WValue.member?_atKey, Ne.symm hk]
      | some v => rfl

/-- C12: for the first row of the seed table `inventory`, whose id is `100`, the
record of `buildRowsJson` maps the primary_key column id `sku` to the text `ELEC-001`,
the encoding of the stored cell `sku`, and not to the row's id: the id written first is
overwritten by the cell written afterwards. -/
theorem buildRowsJson_inventory_key_is_cell :
    DataStore.new.getTable "inventory" = some seedInventory ∧
    seedInventory.primary_key = "sku" ∧
    (seedInventory.rows[0]?).map Row.id = some "100" ∧
    ((buildRowsJson seedInventory).items[0]?).bind (fun record => record.member? "sku")
      = some (.string "ELEC-001") ∧
    ((buildRowsJson seedInventory).items[0]?).bind (fun record => record.member? "sku")
      ≠ some (.string "100") := by
  refine ⟨by decide, rfl, rfl, rfl, ?_⟩
  have h : ((buildRowsJson seedInventory).items[0]?).bind
      (fun record => record.member? "sku") = some (.string "ELEC-001") := rfl
  rw [h]
  intro hc
  simp at hc

/-- Where the stored cells do not collide with the two key names, `buildRowsJson` does
what is expected of it: it produces one record per row, in row order; the record of a
row (whose cell keys are distinct, as in every `std::map`) maps every stored cell key
to the encoding of its Value; it maps the table's non-empty parent_key to the row's
parent_id, or to an explicit null when the row has no parent, if the row stores no
cell under that key; and it maps the table's primary_key to the row's id if the
parent_key is empty or another name and the row stores no cell under the primary_key
other than the text of its id. -/
theorem buildRowsJson_record_members (table : Table) (i : Nat) (row : Row)
    (hrow : table.rows[i]? = some row) (hkeys : (row.cells.map Prod.fst).Nodup) :
    (buildRowsJson table).items.length = table.rows.length ∧
    ∃ record : WValue,
      (buildRowsJson table).items[i]? = some record ∧
      (∀ (k : String) (v : CellValue), StdMap.find row.cells k = some v →
        record.member? k = some (valueToJson v)) ∧
      (table.parent_key ≠ "" → StdMap.find row.cells table.parent_key = none →
        record.member? table.parent_key =
          some (match row.parent_id with
            | some parent => .string parent
            | none => .null)) ∧
      ((table.parent_key = "" ∨ table.parent_key ≠ table.primary_key) →
        (∀ v : CellValue, StdMap.find row.cells table.primary_key = some v →
          v = .string row.id) →
        record.member? table.primary_key = some (.string row.id)) := by
  have hitems := buildRowsJson_items table
  refine ⟨by simp [hitems], buildRowsJson.record table row, by simp [hitems, hrow], ?_, ?_, ?_⟩
  · intro k v hk
    unfold buildRowsJson.record
    simp only []
    rw [member?_foldl_cells _ _ _ hkeys, hk]
  · intro hpk hnone
    unfold buildRowsJson.record
    simp only []
    rw [member?_foldl_cells _ _ _ hkeys, hnone, if_pos hpk]
    cases row.parent_id <;> simp [WValue.member?_atKey]
  · intro hpar hcell
    unfold buildRowsJson.record
    simp only []
    rw [member?_foldl_cells _ _ _ hkeys]
    cases hf : StdMap.find row.cells table.primary_key with
    | some v =>
      rw [hcell v hf]
      rfl
    | none =>
      simp only []
      by_cases hpk : table.parent_key ≠ ""
      · have hne : table.primary_key ≠ table.parent_key := by
          rcases hpar with h | h
          · exact absurd h hpk
          · exact Ne.symm h
        rw [if_pos hpk]
        cases row.parent_id <;> simp [WValue.member?_atKey, hne]
      · rw [if_neg hpk]
        simp [WValue.member?_atKey]

/-- The record of the first row of the seed table `employees`, which stores its id as
the cell `id` and has no parent: it carries the row's id, an explicit null parent and
the stored salary. -/
theorem buildRowsJson_record_members_witness :
    (buildRowsJson seedEmployees).items.length = 6 ∧
    ∃ record : WValue,
      (buildRowsJson seedEmployees).items[0]? = some record ∧
      record.member? "id" = some (.string "1") ∧
      record.member? "pid" = some .null ∧
      record.member? "salary" = some (.int 500000) :=
  have h := buildRowsJson_record_members seedEmployees 0
    ⟨"1", none, StdMap.ofList [("id", .string "1"), ("name", .string "Ivanov I.I."),
      ("position", .string "CEO"), ("salary", .int 500000), ("active", .bool true)]⟩
    rfl (by decide)
  have ⟨record, h1, h2, h3, h4⟩ := h.2
  ⟨h.1, record, h1,
    h4 (Or.inr (by decide)) (by decide),
    h3 (by decide) (by decide),
    h2 "salary" (.int 500000) (by decide)⟩

/-! ## The two surfaces: not-found and rejection -/

/-- On a table that has the column but no row with the given id, `updateCell` fails,
returns the store it was given, and reports the primary or read-only flag of the
column if one of them stops the update, "Row not found" otherwise. -/
theorem updateCell_unknown_row (db : DataStore) (table : Table) (column : ColumnDef)
    (table_id row_id column_id : String) (value : CellValue) (error_message : String)
    (hT : db.getTable table_id = some table)
    (hC : findColumn table column_id = some column)
    (hR : table.rows.any (fun r => decide (r.id = row_id)) = false) :
    (db.updateCell table_id row_id column_id value error_message).ok = false ∧
    (db.updateCell table_id row_id column_id value error_message).store = db ∧
    (db.updateCell table_id row_id column_id value error_message).error_message =
      if column.is_primary then "Primary key column is read-only"
      else if !column.is_editable then "Column is read-only"
      else "Row not found" := by
  unfold DataStore.getTable at hT
  unfold findColumn at hC
  have hA := (assignCell_eq_none table.rows row_id column_id value).2 hR
  unfold DataStore.updateCell
  cases hp : column.is_primary <;> cases he : column.is_editable <;>
    simp [hT, hC, hA, hp, he]

/-- A rejection by `parseJsonValueForColumn` carries one of its three messages. -/
theorem parseJson_rejection_nonempty (node : RValue) (column : ColumnDef)
    (error_message msg : String)
    (h : parseJsonValueForColumn node column error_message = .returned none msg) :
    msg = "Expected string value" ∨ msg = "Expected boolean value" ∨
      msg = "Expected numeric value" := by
  unfold parseJsonValueForColumn at h
  cases node <;> cases ht : column.type <;> simp [ht] at h <;>
    first
      | (simp [h])
      | (split at h <;> first | (split at h <;> simp at h) | simp at h)

/-- A rejection by `parseProtoValueForColumn` carries one of its four messages. -/
theorem parseProto_rejection_nonempty (proto_value : ProtoValue) (column : ColumnDef)
    (error_message msg : String)
    (h : parseProtoValueForColumn proto_value column error_message = .returned none msg) :
    msg = "Expected string value" ∨ msg = "Expected boolean value" ∨
      msg = "Expected numeric value" ∨ msg = "Value is missing" := by
  have hm := parseProto_rejection_message proto_value column error_message msg h
  cases proto_value with
  | null_value => simp [parseProtoValueForColumn] at h
  | string_value s => exact Or.inl (hm.1 s rfl)
  | bool_value b => exact Or.inr (Or.inl (hm.2.1 b rfl))
  | int_value n => exact Or.inr (Or.inr (Or.inl (hm.2.2.1 n rfl)))
  | double_value d => exact Or.inr (Or.inr (Or.inl (hm.2.2.2.1 d rfl)))
  | kind_not_set => exact Or.inr (Or.inr (Or.inr (hm.2.2.2.2 rfl)))

/-- Refutation of C14 as stated: on the constructed store, the well-formed request
`row_id = 999, column_id = name, value = x` for the table `employees`, which has the
column `name` and no row `999`, is answered with code 400 and the payload
`"error":"Row not found"`, not with 404. -/
theorem updateHandler_unknown_row_is_400 :
    (DataStore.new.getTable "employees").map
      (fun t => (findColumn t "name").isSome) = some true ∧
    (DataStore.new.getTable "employees").map
      (fun t => t.rows.any (fun r => decide (r.id = "999"))) = some false ∧
    updateHandler DataStore.new
      (some [("row_id", .string "999"), ("column_id", .string "name"),
        ("value", .string "x")])
      HttpResponse.fresh "employees" =
      .ended ⟨400, (setCors HttpResponse.fresh).headers,
        "\x7b\"error\":\"Row not found\"\x7d"⟩ DataStore.new ∧
    (400 : Nat) ≠ 404 := by
  decide

/-- C14 (amended): on the JSON surface, for every update request whose body is a JSON
object with the texts `row_id` and `column_id` and a `value`, an unknown table id and
an unknown column id each produce a 404 response with an error payload; an unknown
row id produces a 400 response with an error payload (unless decoding the value is
undefined), which is `"error":"Row not found"` when the value is accepted and the
column is editable and not primary. The store is left as it was in all these cases. -/
theorem updateHandler_not_found (db : DataStore) (members : List (String × RValue))
    (res : HttpResponse) (table_id row_id column_id : String) (value : RValue)
    (hr : memberOf members "row_id" = some (.string row_id))
    (hc : memberOf members "column_id" = some (.string column_id))
    (hv : memberOf members "value" = some value) :
    (db.getTable table_id = none →
      updateHandler db (some members) res table_id =
        .ended ⟨404, (setCors res).headers,
          res.body ++ "\x7b\"error\":\"table not found\"\x7d"⟩ db) ∧
    (∀ table : Table, db.getTable table_id = some table →
      findColumn table column_id = none →
      updateHandler db (some members) res table_id =
        .ended ⟨404, (setCors res).headers,
          res.body ++ "\x7b\"error\":\"column not found\"\x7d"⟩ db) ∧
    (∀ (table : Table) (column : ColumnDef), db.getTable table_id = some table →
      findColumn table column_id = some column →
      table.rows.any (fun r => decide (r.id = row_id)) = false →
      (updateHandler db (some members) res table_id = .undefined ∨
        ∃ msg : String, msg ≠ "" ∧
          updateHandler db (some members) res table_id =
            .ended ⟨400, (setCors res).headers,
              res.body ++ ("\x7b\"error\":\"" ++ msg ++ "\"\x7d")⟩ db) ∧
      (∀ (v : CellValue) (m : String),
        parseJsonValueForColumn value column "" = .returned (some v) m →
        column.is_primary = false → column.is_editable = true →
        updateHandler db (some members) res table_id =
          .ended ⟨400, (setCors res).headers,
            res.body ++ ("\x7b\"error\":\"" ++ "Row not found" ++ "\"\x7d")⟩ db)) := by
  refine ⟨?_, ?_, ?_⟩
  · intro hT
    simp [updateHandler, hT, setCors, HttpResponse.write]
  · intro table hT hC
    simp [updateHandler, hT, hr, hc, hv, RValue.s, hC, setCors, HttpResponse.write]
  · intro table column hT hC hR
    constructor
    · cases hP : parseJsonValueForColumn value column "" with
      | undefined =>
        left
        simp [updateHandler, hT, hr, hc, hv, RValue.s, hC, hP]
      | returned result msg =>
        right
        cases result with
        | none =>
          refine ⟨msg, ?_, ?_⟩
          · rcases parseJson_rejection_nonempty value column "" msg hP with h | h | h <;>
              rw [h] <;> decide
          · simp [updateHandler, hT, hr, hc, hv, RValue.s, hC, hP, setCors,
              HttpResponse.write]
        | some v =>
          have hU := updateCell_unknown_row db table column table_id row_id column_id v ""
            hT hC hR
          refine ⟨(db.updateCell table_id row_id column_id v "").error_message, ?_, ?_⟩
          · rw [hU.2.2]
            cases column.is_primary <;> cases column.is_editable <;> decide
          · simp [updateHandler, hT, hr, hc, hv, RValue.s, hC, hP, hU.1, hU.2.1, setCors,
              HttpResponse.write]
    · intro v m hP hp he
      have hU := updateCell_unknown_row db table column table_id row_id column_id v ""
        hT hC hR
      have hmsg : (db.updateCell table_id row_id column_id v "").error_message
          = "Row not found" := by
        rw [hU.2.2]
        simp [hp, he]
      simp [updateHandler, hT, hr, hc, hv, RValue.s, hC, hP, hU.1, hU.2.1, hmsg, setCors,
        HttpResponse.write]

/-- Witness of C14 on the constructed store: an unknown column of `employees`. -/
theorem updateHandler_not_found_witness :
    updateHandler DataStore.new
      (some [("row_id", .string "1"), ("column_id", .string "colour"),
        ("value", .string "red")])
      HttpResponse.fresh "employees" =
      .ended ⟨404, (setCors HttpResponse.fresh).headers,
        HttpResponse.fresh.body ++ "\x7b\"error\":\"column not found\"\x7d"⟩ DataStore.new :=
  (updateHandler_not_found DataStore.new
    [("row_id", .string "1"), ("column_id", .string "colour"), ("value", .string "red")]
    HttpResponse.fresh "employees" "1" "colour" (.string "red") rfl rfl rfl).2.1
    seedEmployees (by decide) (by decide)

/-- Refutation of C15 as stated: on the constructed store, `UpdateCell` for the unknown
table id `nope` returns the status OK with `ok = false` and the message
`table not found`, not the status NOT_FOUND. -/
theorem UpdateCell_unknown_table_is_ok :
    DataStore.new.getTable "nope" = none ∧
    UpdateCell DataStore.new ⟨"nope", "1", "name", .string_value "x"⟩ ⟨false, ""⟩ =
      .returned ⟨.OK, ""⟩ ⟨false, "table not found"⟩ DataStore.new ∧
    StatusCode.OK ≠ StatusCode.NOT_FOUND := by
  decide

/-- C15 (amended): on the RPC surface an unknown table id yields the transport-level
status NOT_FOUND in `GetSchema` and `GetData`; in `UpdateCell` it yields, like an
unknown column, a rejected value and an unknown row, the status OK with `ok = false`
and a non-empty error message (for an unknown row unless decoding the value is
undefined), and the store is left as it was. -/
theorem rpc_not_found (db : DataStore) (table_id row_id column_id : String)
    (value : ProtoValue) (response : UpdateCellResponse) :
    (db.getTable table_id = none →
      (∀ r : GetSchemaResponse, GetSchema db ⟨table_id⟩ r
        = (⟨.NOT_FOUND, "table not found"⟩, r)) ∧
      (∀ r : GetDataResponse, GetData db ⟨table_id⟩ r
        = (⟨.NOT_FOUND, "table not found"⟩, r)) ∧
      UpdateCell db ⟨table_id, row_id, column_id, value⟩ response
        = .returned Status.OK ⟨false, "table not found"⟩ db) ∧
    (∀ table : Table, db.getTable table_id = some table →
      findColumn table column_id = none →
      UpdateCell db ⟨table_id, row_id, column_id, value⟩ response
        = .returned Status.OK ⟨false, "column not found"⟩ db) ∧
    (∀ (table : Table) (column : ColumnDef) (msg : String),
      db.getTable table_id = some table →
      findColumn table column_id = some column →
      parseProtoValueForColumn value column "" = .returned none msg →
      msg ≠ "" ∧
      UpdateCell db ⟨table_id, row_id, column_id, value⟩ response
        = .returned Status.OK ⟨false, msg⟩ db) ∧
    (∀ (table : Table) (column : ColumnDef), db.getTable table_id = some table →
      findColumn table column_id = some column →
      table.rows.any (fun r => decide (r.id = row_id)) = false →
      UpdateCell db ⟨table_id, row_id, column_id, value⟩ response = .undefined ∨
      ∃ msg : String, msg ≠ "" ∧
        UpdateCell db ⟨table_id, row_id, column_id, value⟩ response
          = .returned Status.OK ⟨false, msg⟩ db) := by
  refine ⟨?_, ?_, ?_, ?_⟩
  · intro hT
    refine ⟨?_, ?_, ?_⟩
    · intro r
      simp [GetSchema, hT]
    · intro r
      simp [GetData, hT]
    · simp [UpdateCell, hT]
  · intro table hT hC
    simp [UpdateCell, hT, hC]
  · intro table column msg hT hC hP
    constructor
    · rcases parseProto_rejection_nonempty value column "" msg hP with h | h | h | h <;>
        rw [h] <;> decide
    · simp [UpdateCell, hT, hC, hP]
  · intro table column hT hC hR
    cases hP : parseProtoValueForColumn value column "" with
    | undefined =>
      left
      simp [UpdateCell, hT, hC, hP]
    | returned result msg =>
      right
      cases result with
      | none =>
        refine ⟨msg, ?_, ?_⟩
        · rcases parseProto_rejection_nonempty value column "" msg hP with h | h | h | h <;>
            rw [h] <;> decide
        · simp [UpdateCell, hT, hC, hP]
      | some v =>
        have hU := updateCell_unknown_row db table column table_id row_id column_id v ""
          hT hC hR
        refine ⟨(db.updateCell table_id row_id column_id v "").error_message, ?_, ?_⟩
        · rw [hU.2.2]
          cases column.is_primary <;> cases column.is_editable <;> decide
        · simp [UpdateCell, hT, hC, hP, hU.1, hU.2.1]

/-- Witness of C15 on the constructed store: `GetData` for the unknown table `nope`. -/
theorem rpc_not_found_witness :
    GetData DataStore.new ⟨"nope"⟩ ⟨[]⟩ = (⟨.NOT_FOUND, "table not found"⟩, ⟨[]⟩) :=
  ((rpc_not_found DataStore.new "nope" "1" "name" (.string_value "x") ⟨false, ""⟩).1
    (by decide)).2.1 ⟨[]⟩

/-! ## The key order of the maps is a strict total order -/

theorem char_toNat_inj (x y : Char) (h : x.toNat = y.toNat) : x = y := by
  apply Char.ext
  cases x with
  | mk vx hx =>
    cases y with
    | mk vy hy =>
      cases vx with
      | mk fx =>
        cases vy with
        | mk fy =>
          simp only [Char.toNat, UInt32.toNat] at h
          have hf : fx = fy := BitVec.eq_of_toNat_eq h
          subst hf
          rfl

theorem charsLess_asymm (a b : List Char) (h : charsLess a b = true) :
    charsLess b a = false := by
  induction a generalizing b with
  | nil =>
    cases b with
    | nil => simp [charsLess] at h
    | cons y ys => rfl
  | cons x xs ih =>
    cases b with
    | nil => simp [charsLess] at h
    | cons y ys =>
      unfold charsLess at h ⊢
      by_cases h1 : x.toNat < y.toNat
      · have h2 : ¬ y.toNat < x.toNat := by omega
        simp [h1, h2]
      · by_cases h2 : y.toNat < x.toNat
        · simp [h1, h2] at h
        · simp only [h1, h2, if_false] at h ⊢
          exact ih ys h

theorem charsLess_total (a b : List Char) (h : a ≠ b) :
    charsLess a b = true ∨ charsLess b a = true := by
  induction a generalizing b with
  | nil =>
    cases b with
    | nil => exact absurd rfl h
    | cons y ys => exact Or.inl rfl
  | cons x xs ih =>
    cases b with
    | nil => exact Or.inr rfl
    | cons y ys =>
      unfold charsLess
      by_cases h1 : x.toNat < y.toNat
      · simp [h1]
      · by_cases h2 : y.toNat < x.toNat
        · simp [h2]
        · have hxy : x = y := char_toNat_inj x y (by omega)
          subst hxy
          have hne : xs ≠ ys := fun hc => h (by rw [hc])
          simpa [h1] using ih ys hne

theorem charsLess_trans (a b c : List Char) (hab : charsLess a b = true)
    (hbc : charsLess b c = true) : charsLess a c = true := by
  induction a generalizing b c with
  | nil =>
    cases b with
    | nil => simp [charsLess] at hab
    | cons y ys =>
      cases c with
      | nil => simp [charsLess] at hbc
      | cons z zs => rfl
  | cons x xs ih =>
    cases b with
    | nil => simp [charsLess] at hab
    | cons y ys =>
      cases c with
      | nil => simp [charsLess] at hbc
      | cons z zs =>
        unfold charsLess at hab hbc ⊢
        by_cases h1 : x.toNat < y.toNat
        · by_cases h3 : y.toNat < z.toNat
          · have h5 : x.toNat < z.toNat := by omega
            simp [h5]
          · by_cases h4 : z.toNat < y.toNat
            · simp [h3, h4] at hbc
            · have h5 : x.toNat < z.toNat := by omega
              simp [h5]
        · by_cases h2 : y.toNat < x.toNat
          · simp [h1, h2] at hab
          · simp only [h1, h2, if_false] at hab
            by_cases h3 : y.toNat < z.toNat
            · have h5 : x.toNat < z.toNat := by omega
              simp [h5]
            · by_cases h4 : z.toNat < y.toNat
              · simp [h3, h4] at hbc
              · simp only [h3, h4, if_false] at hbc
                have h5 : ¬ x.toNat < z.toNat := by omega
                have h6 : ¬ z.toNat < x.toNat := by omega
                simp only [h5, h6, if_false]
                exact ih ys zs hab hbc

theorem stringLess_asymm (a b : String) (h : stringLess a b = true) :
    stringLess b a = false :=
  charsLess_asymm a.data b.data h

theorem stringLess_total (a b : String) (h : a ≠ b) :
    stringLess a b = true ∨ stringLess b a = true :=
  charsLess_total a.data b.data (fun hd => h (String.ext hd))

theorem stringLess_trans (a b c : String) (hab : stringLess a b = true)
    (hbc : stringLess b c = true) : stringLess a c = true :=
  charsLess_trans a.data b.data c.data hab hbc

/-! ## Writes to different places commute -/

theorem StdMap.assign_assign_same {V : Type} (m : StdMap V) (k : String) (v₁ v₂ : V) :
    StdMap.assign (StdMap.assign m k v₁) k v₂ = StdMap.assign m k v₂ := by
  induction m with
  | nil => simp [StdMap.assign]
  | cons e m ih =>
    obtain ⟨k', v'⟩ := e
    by_cases h : k' = k
    · simp [StdMap.assign, h]
    · by_cases hlt : stringLess k k' = true
      · simp [StdMap.assign, h, hlt]
      · simp [StdMap.assign, h, hlt, ih]

theorem StdMap.assign_comm {V : Type} (m : StdMap V) (k₁ k₂ : String) (v₁ v₂ : V)
    (hne : k₁ ≠ k₂) :
    StdMap.assign (StdMap.assign m k₁ v₁) k₂ v₂ =
      StdMap.assign (StdMap.assign m k₂ v₂) k₁ v₁ := by
  have hne' : k₂ ≠ k₁ := Ne.symm hne
  have tot := stringLess_total k₁ k₂ hne
  induction m with
  | nil =>
    rcases tot with h | h
    · have h' := stringLess_asymm _ _ h
      simp [StdMap.assign, hne, hne', h, h']
    · have h' := stringLess_asymm _ _ h
      simp [StdMap.assign, hne, hne', h, h']
  | cons e m ih =>
    obtain ⟨k', v'⟩ := e
    by_cases e1 : k' = k₁
    · subst e1
      by_cases l21 : stringLess k₂ k' = true
      · have h' := stringLess_asymm _ _ l21
        simp [StdMap.assign, hne, hne', l21, h']
      · simp [StdMap.assign, hne, hne', l21]
    · by_cases e2 : k' = k₂
      · subst e2
        by_cases l12 : stringLess k₁ k' = true
        · have h' := stringLess_asymm _ _ l12
          simp [StdMap.assign, hne, hne', l12, h']
        · simp [StdMap.assign, hne, hne', l12]
      · by_cases l1 : stringLess k₁ k' = true
        · by_cases l2 : stringLess k₂ k' = true
          · rcases tot with h | h
            · have h' := stringLess_asymm _ _ h
              simp [StdMap.assign, e1, e2, l1, l2, hne, hne', h, h']
            · have h' := stringLess_asymm _ _ h
              simp [StdMap.assign, e1, e2, l1, l2, hne, hne', h, h']
          · have l21 : stringLess k₂ k₁ = false := by
              cases hc : stringLess k₂ k₁ with
              | false => rfl
              | true => exact absurd (stringLess_trans k₂ k₁ k' hc l1) l2
            simp [StdMap.assign, e1, e2, l1, l2, hne, hne', l21]
        · by_cases l2 : stringLess k₂ k' = true
          · have l12 : stringLess k₁ k₂ = false := by
              cases hc : stringLess k₁ k₂ with
              | false => rfl
              | true => exact absurd (stringLess_trans k₁ k₂ k' hc l2) l1
            simp [StdMap.assign, e1, e2, l1, l2, hne, hne', l12]
          · simp [StdMap.assign, e1, e2, l1, l2, ih]

theorem StdMap.setAt_setAt {V : Type} (m : StdMap V) (k : String) (a b : V) :
    StdMap.setAt (StdMap.setAt m k a) k b = StdMap.setAt m k b := by
  induction m with
  | nil => rfl
  | cons e m ih =>
    obtain ⟨k', v'⟩ := e
    by_cases h : k' = k
    · simp [StdMap.setAt, h]
    · simp [StdMap.setAt, h, ih]

theorem StdMap.setAt_comm {V : Type} (m : StdMap V) (k₁ k₂ : String) (a b : V)
    (hne : k₁ ≠ k₂) :
    StdMap.setAt (StdMap.setAt m k₁ a) k₂ b = StdMap.setAt (StdMap.setAt m k₂ b) k₁ a := by
  induction m with
  | nil => rfl
  | cons e m ih =>
    obtain ⟨k', v'⟩ := e
    by_cases e1 : k' = k₁
    · subst e1
      simp [StdMap.setAt, hne]
    · by_cases e2 : k' = k₂
      · subst e2
        simp [StdMap.setAt, e1]
      · simp [StdMap.setAt, e1, e2, ih]

theorem StdMap.setAt_of_find_none {V : Type} (m : StdMap V) (k : String) (v : V)
    (h : StdMap.find m k = none) : StdMap.setAt m k v = m := by
  induction m with
  | nil => rfl
  | cons e m ih =>
    obtain ⟨k', v'⟩ := e
    unfold StdMap.find at h
    by_cases e1 : k' = k
    · simp [e1] at h
    · rw [if_neg e1] at h
      simp [StdMap.setAt, e1, ih h]

theorem assignCell_overwrite (rows rows₁ : List Row) (row_id column_id : String)
    (v₁ v₂ : CellValue) (h : assignCell rows row_id column_id v₁ = some rows₁) :
    assignCell rows₁ row_id column_id v₂ = assignCell rows row_id column_id v₂ := by
  induction rows generalizing rows₁ with
  | nil => simp [assignCell] at h
  | cons r rows ih =>
    unfold assignCell at h
    by_cases hr : r.id = row_id
    · rw [if_pos hr, Option.some.injEq] at h
      subst h
      simp [assignCell, hr, StdMap.assign_assign_same]
    · rw [if_neg hr, Option.map_eq_some'] at h
      obtain ⟨rows₂, h₂, rfl⟩ := h
      simp [assignCell, hr, ih rows₂ h₂]

theorem assignCell_comm (rows rowsA rowsB : List Row) (rA cA rB cB : String)
    (vA vB : CellValue) (hne : rA ≠ rB ∨ cA ≠ cB)
    (hA : assignCell rows rA cA vA = some rowsA)
    (hB : assignCell rows rB cB vB = some rowsB) :
    ∃ rows₂ : List Row, assignCell rowsA rB cB vB = some rows₂ ∧
      assignCell rowsB rA cA vA = some rows₂ := by
  induction rows generalizing rowsA rowsB with
  | nil => simp [assignCell] at hA
  | cons r rows ih =>
    unfold assignCell at hA hB
    by_cases hrA : r.id = rA
    · rw [if_pos hrA, Option.some.injEq] at hA
      subst hA
      by_cases hrB : r.id = rB
      · rw [if_pos hrB, Option.some.injEq] at hB
        subst hB
        have hc : cA ≠ cB := by
          rcases hne with h | h
          · exact absurd (hrA.symm.trans hrB) h
          · exact h
        exact ⟨{ r with cells := StdMap.assign (StdMap.assign r.cells cA vA) cB vB } :: rows,
          by simp [assignCell, hrB],
          by simp [assignCell, hrA, StdMap.assign_comm r.cells cA cB vA vB hc]⟩
      · rw [if_neg hrB, Option.map_eq_some'] at hB
        obtain ⟨rows₂, h₂, rfl⟩ := hB
        exact ⟨{ r with cells := StdMap.assign r.cells cA vA } :: rows₂,
          by simp [assignCell, hrB, h₂], by simp [assignCell, hrA]⟩
    · rw [if_neg hrA, Option.map_eq_some'] at hA
      obtain ⟨rows₁, h₁, rfl⟩ := hA
      by_cases hrB : r.id = rB
      · rw [if_pos hrB, Option.some.injEq] at hB
        subst hB
        exact ⟨{ r with cells := StdMap.assign r.cells cB vB } :: rows₁,
          by simp [assignCell, hrB], by simp [assignCell, hrA, h₁]⟩
      · rw [if_neg hrB, Option.map_eq_some'] at hB
        obtain ⟨rows₂, h₂, rfl⟩ := hB
        obtain ⟨rows₃, h₃, h₄⟩ := ih rows₁ rows₂ h₁ h₂
        exact ⟨r :: rows₃, by simp [assignCell, hrB, h₃], by simp [assignCell, hrA, h₄]⟩

theorem assignCell_isSome_congr (rows rows' : List Row) (row_id c c' : String)
    (v v' : CellValue) (hid : rows'.map Row.id = rows.map Row.id) :
    (assignCell rows' row_id c v).isSome = (assignCell rows row_id c' v').isSome := by
  have hany : rows'.any (fun r => decide (r.id = row_id)) =
      rows.any (fun r => decide (r.id = row_id)) := by
    have h1 : ∀ l : List Row, l.any (fun r => decide (r.id = row_id)) =
        (l.map Row.id).any (fun i => decide (i = row_id)) := by
      intro l
      induction l with
      | nil => rfl
      | cons a l ih => simp [ih]
    rw [h1, h1, hid]
  cases h1 : assignCell rows' row_id c v with
  | none =>
    have h2 := (assignCell_eq_none rows' row_id c v).1 h1
    rw [hany] at h2
    rw [(assignCell_eq_none rows row_id c' v').2 h2]
  | some r1 =>
    cases h2 : assignCell rows row_id c' v' with
    | some r2 => rfl
    | none =>
      have h3 := (assignCell_eq_none rows row_id c' v').1 h2
      rw [← hany] at h3
      rw [(assignCell_eq_none rows' row_id c v).2 h3] at h1
      exact absurd h1 (by simp)

theorem put_cases (db : DataStore) (t r c : String) (v : CellValue) :
    (db.put t r c v = db ∧
      (StdMap.find db.tables_ t = none ∨
        ∃ table, StdMap.find db.tables_ t = some table ∧
          assignCell table.rows r c v = none)) ∨
    ∃ (table : Table) (rows : List Row),
      StdMap.find db.tables_ t = some table ∧
      assignCell table.rows r c v = some rows ∧
      db.put t r c v = ⟨StdMap.setAt db.tables_ t { table with rows := rows }⟩ := by
  cases hT : StdMap.find db.tables_ t with
  | none => exact Or.inl ⟨by simp [DataStore.put, hT], Or.inl rfl⟩
  | some table =>
    cases hR : assignCell table.rows r c v with
    | none => exact Or.inl ⟨by simp [DataStore.put, hT, hR], Or.inr ⟨table, rfl, hR⟩⟩
    | some rows => exact Or.inr ⟨table, rows, rfl, hR, by simp [DataStore.put, hT, hR]⟩

/-- The store that `updateCell` returns is the written store when it succeeds and the
given store when it fails. -/
theorem updateCell_store_put (db : DataStore) (t r c : String) (v : CellValue)
    (m : String) :
    (db.updateCell t r c v m).store =
      if (db.updateCell t r c v m).ok = true then db.put t r c v else db := by
  rcases updateCell_cases db t r c v m with ⟨hok, hs⟩ | ⟨table, col, rows, hT, _, _, _, hR,
    hok, _, hs⟩
  · simp [hok, hs]
  · rw [hs, hok]
    simp [DataStore.put, hT, hR]

/-- A write to one table and a replacement of another table can be made in either
order. -/
theorem put_setAt_ne (T : StdMap Table) (t t' r c : String) (v : CellValue) (x : Table)
    (hne : t ≠ t') :
    (DataStore.mk (StdMap.setAt T t' x)).put t r c v =
      ⟨StdMap.setAt ((DataStore.mk T).put t r c v).tables_ t' x⟩ := by
  have hf := StdMap.find_setAt_ne T t' t x hne
  cases hT : StdMap.find T t with
  | none => simp [DataStore.put, hf, hT]
  | some table =>
    cases hR : assignCell table.rows r c v with
    | none => simp [DataStore.put, hf, hT, hR]
    | some rows =>
      simp [DataStore.put, hf, hT, hR, StdMap.setAt_comm T t' t x _ (Ne.symm hne)]

/-- Two writes to different cells can be made in either order. -/
theorem put_comm (db : DataStore) (tA rA cA tB rB cB : String) (vA vB : CellValue)
    (hne : tA ≠ tB ∨ rA ≠ rB ∨ cA ≠ cB) :
    (db.put tA rA cA vA).put tB rB cB vB = (db.put tB rB cB vB).put tA rA cA vA := by
  obtain ⟨T⟩ := db
  by_cases htt : tA = tB
  · subst htt
    have hne' : rA ≠ rB ∨ cA ≠ cB := by
      rcases hne with h | h
      · exact absurd rfl h
      · exact h
    cases hT : StdMap.find T tA with
    | none => simp [DataStore.put, hT]
    | some table =>
      cases hA : assignCell table.rows rA cA vA with
      | none =>
        cases hB : assignCell table.rows rB cB vB with
        | none => simp [DataStore.put, hT, hA, hB]
        | some rowsB =>
          have hid := (assignCell_map_id table.rows rowsB rB cB vB hB).1
          have hsome := assignCell_isSome_congr table.rows rowsB rA cA cA vA vA hid
          rw [hA] at hsome
          have hnone : assignCell rowsB rA cA vA = none := by
            cases h : assignCell rowsB rA cA vA with
            | none => rfl
            | some x => simp [h] at hsome
          simp [DataStore.put, hT, hA, hB, StdMap.find_setAt_self T tA table _ hT, hnone]
      | some rowsA =>
        cases hB : assignCell table.rows rB cB vB with
        | none =>
          have hid := (assignCell_map_id table.rows rowsA rA cA vA hA).1
          have hsome := assignCell_isSome_congr table.rows rowsA rB cB cB vB vB hid
          rw [hB] at hsome
          have hnone : assignCell rowsA rB cB vB = none := by
            cases h : assignCell rowsA rB cB vB with
            | none => rfl
            | some x => simp [h] at hsome
          simp [DataStore.put, hT, hA, hB, StdMap.find_setAt_self T tA table _ hT, hnone]
        | some rowsB =>
          obtain ⟨rows₂, h₁, h₂⟩ :=
            assignCell_comm table.rows rowsA rowsB rA cA rB cB vA vB hne' hA hB
          simp [DataStore.put, hT, hA, hB, StdMap.find_setAt_self T tA table _ hT, h₁, h₂,
            StdMap.setAt_setAt]
  · rcases put_cases ⟨T⟩ tA rA cA vA with ⟨hA, _⟩ | ⟨ta, rowsA, _, _, hA⟩
    · rcases put_cases ⟨T⟩ tB rB cB vB with ⟨hB, _⟩ | ⟨tb, rowsB, _, _, hB⟩
      · rw [hA, hB, hA]
      · rw [hA, hB]
        simp only []
        rw [put_setAt_ne T tA tB rA cA vA _ htt, hA]
    · rcases put_cases ⟨T⟩ tB rB cB vB with ⟨hB, _⟩ | ⟨tb, rowsB, _, _, hB⟩
      · rw [hB, hA]
        simp only []
        rw [put_setAt_ne T tB tA rB cB vB _ (Ne.symm htt), hB]
      · rw [hA, hB]
        simp only []
        rw [put_setAt_ne T tB tA rB cB vB _ (Ne.symm htt), hB,
          put_setAt_ne T tA tB rA cA vA _ htt, hA]
        simp only []
        rw [StdMap.setAt_comm T tA tB _ _ htt]

/-- A second write to the same cell replaces the first. -/
theorem put_put_same (db : DataStore) (t r c : String) (v₁ v₂ : CellValue) :
    (db.put t r c v₁).put t r c v₂ = db.put t r c v₂ := by
  obtain ⟨T⟩ := db
  cases hT : StdMap.find T t with
  | none => simp [DataStore.put, hT]
  | some table =>
    cases h₁ : assignCell table.rows r c v₁ with
    | none =>
      simp [DataStore.put, hT, h₁]
    | some rows₁ =>
      have h₂ := assignCell_overwrite table.rows rows₁ r c v₁ v₂ h₁
      cases h₃ : assignCell table.rows r c v₂ with
      | none =>
        have hsome := assignCell_isSome_congr table.rows table.rows r c c v₁ v₂ rfl
        rw [h₁, h₃] at hsome
        simp at hsome
      | some rows₃ =>
        rw [h₃] at h₂
        simp [DataStore.put, hT, h₁, h₃, StdMap.find_setAt_self T t table _ hT, h₂,
          StdMap.setAt_setAt]

/-- The flag and the message of `updateCell` are those of the first failing check. -/
theorem updateCell_result (db : DataStore) (t r c : String) (v : CellValue) (m : String) :
    (db.updateCell t r c v m).ok = (Spec.firstFailure db t r c).isNone ∧
    (db.updateCell t r c v m).error_message = (Spec.firstFailure db t r c).getD m := by
  unfold DataStore.updateCell Spec.firstFailure Spec.tableExists Spec.columnExists
    Spec.columnNotPrimary Spec.columnEditable Spec.rowExists Spec.column DataStore.getTable
    findColumn
  cases hT : StdMap.find db.tables_ t with
  | none => simp
  | some table =>
    have hany := find?_isSome_eq_any (fun x : ColumnDef => decide (x.id = c)) table.schema
    cases hC : table.schema.find? (fun x => decide (x.id = c)) with
    | none =>
      rw [hC] at hany
      simp [hC, ← hany]
    | some col =>
      rw [hC] at hany
      cases hp : col.is_primary with
      | true => simp [hC, ← hany, hp]
      | false =>
        cases he : col.is_editable with
        | false => simp [hC, ← hany, hp, he]
        | true =>
          cases hR : assignCell table.rows r c v with
          | none =>
            have hrow := (assignCell_eq_none table.rows r c v).1 hR
            simp [hC, hR, ← hany, hp, he, hrow]
          | some rows =>
            have hrow : table.rows.any (fun x => decide (x.id = r)) = true := by
              cases hb : table.rows.any (fun x => decide (x.id = r)) with
              | true => rfl
              | false =>
                rw [(assignCell_eq_none table.rows r c v).2 hb] at hR
                exact absurd hR (by simp)
            simp [hC, hR, ← hany, hp, he, hrow]

theorem any_id_congr (rows rows' : List Row) (r : String)
    (hid : rows'.map Row.id = rows.map Row.id) :
    rows'.any (fun x => decide (x.id = r)) = rows.any (fun x => decide (x.id = r)) := by
  have h1 : ∀ l : List Row, l.any (fun x => decide (x.id = r)) =
      (l.map Row.id).any (fun i => decide (i = r)) := by
    intro l
    induction l with
    | nil => rfl
    | cons a l ih => simp [ih]
  rw [h1, h1, hid]

/-- A write changes no table's schema and no row id: the checks of `updateCell` have
the same outcome before and after it. -/
theorem firstFailure_put (db : DataStore) (tB rB cB : String) (vB : CellValue)
    (t r c : String) :
    Spec.firstFailure (db.put tB rB cB vB) t r c = Spec.firstFailure db t r c := by
  rcases put_cases db tB rB cB vB with ⟨h, _⟩ | ⟨table, rows, hT, hR, h⟩
  · rw [h]
  · rw [h]
    have hid := (assignCell_map_id table.rows rows rB cB vB hR).1
    by_cases ht : t = tB
    · subst ht
      have hf := StdMap.find_setAt_self db.tables_ t table { table with rows := rows } hT
      simp [Spec.firstFailure, Spec.tableExists, Spec.columnExists,
        Spec.columnNotPrimary, Spec.columnEditable, Spec.rowExists, Spec.column,
        DataStore.getTable, findColumn, hf, hT, any_id_congr table.rows rows r hid]
    · have hf := StdMap.find_setAt_ne db.tables_ tB t { table with rows := rows } ht
      simp only [Spec.firstFailure, Spec.tableExists, Spec.columnExists,
        Spec.columnNotPrimary, Spec.columnEditable, Spec.rowExists, Spec.column,
        DataStore.getTable, findColumn, hf]

theorem firstFailure_updateCell (db : DataStore) (tB rB cB : String) (vB : CellValue)
    (mB : String) (t r c : String) :
    Spec.firstFailure (db.updateCell tB rB cB vB mB).store t r c
      = Spec.firstFailure db t r c := by
  rw [updateCell_store_put]
  by_cases h : (db.updateCell tB rB cB vB mB).ok = true
  · rw [if_pos h, firstFailure_put]
  · rw [if_neg h]

/-- C20: sequential updates compose predictably. Two `updateCell` calls that target
different cells (different table_id, or row_id, or column_id) leave the same final
store and have the same two results (the same flag and the same content of
`error_message`) in either order; and of two calls that target the same cell, the
second alone determines the final store. -/
theorem updateCell_order_independent (db : DataStore) :
    (∀ A B : UpdateCall,
      (A.table_id ≠ B.table_id ∨ A.row_id ≠ B.row_id ∨ A.column_id ≠ B.column_id) →
      ((db.call A).store.call B).store = ((db.call B).store.call A).store ∧
      ((db.call B).store.call A).ok = (db.call A).ok ∧
      ((db.call B).store.call A).error_message = (db.call A).error_message ∧
      ((db.call A).store.call B).ok = (db.call B).ok ∧
      ((db.call A).store.call B).error_message = (db.call B).error_message) ∧
    (∀ (t r c : String) (v₁ v₂ : CellValue) (m₁ m₂ : String),
      ((db.updateCell t r c v₁ m₁).store.updateCell t r c v₂ m₂).store
        = (db.updateCell t r c v₂ m₂).store) := by
  constructor
  · intro A B hne
    have rA := updateCell_result db A.table_id A.row_id A.column_id A.value A.error_message
    have rB := updateCell_result db B.table_id B.row_id B.column_id B.value B.error_message
    have rBA := updateCell_result (db.call B).store A.table_id A.row_id A.column_id A.value
      A.error_message
    have rAB := updateCell_result (db.call A).store B.table_id B.row_id B.column_id B.value
      B.error_message
    have fBA : Spec.firstFailure (db.call B).store A.table_id A.row_id A.column_id
        = Spec.firstFailure db A.table_id A.row_id A.column_id :=
      firstFailure_updateCell db _ _ _ _ _ _ _ _
    have fAB : Spec.firstFailure (db.call A).store B.table_id B.row_id B.column_id
        = Spec.firstFailure db B.table_id B.row_id B.column_id :=
      firstFailure_updateCell db _ _ _ _ _ _ _ _
    rw [fBA] at rBA
    rw [fAB] at rAB
    have okA : ((db.call B).store.call A).ok = (db.call A).ok := by
      unfold DataStore.call at *
      rw [rBA.1, rA.1]
    have okB : ((db.call A).store.call B).ok = (db.call B).ok := by
      unfold DataStore.call at *
      rw [rAB.1, rB.1]
    refine ⟨?_, okA, ?_, okB, ?_⟩
    · have sA := updateCell_store_put db A.table_id A.row_id A.column_id A.value
        A.error_message
      have sB := updateCell_store_put db B.table_id B.row_id B.column_id B.value
        B.error_message
      have sBA := updateCell_store_put (db.call B).store A.table_id A.row_id A.column_id
        A.value A.error_message
      have sAB := updateCell_store_put (db.call A).store B.table_id B.row_id B.column_id
        B.value B.error_message
      unfold DataStore.call at *
      rw [sAB, sBA, okA, okB, sA, sB]
      cases hA : (db.updateCell A.table_id A.row_id A.column_id A.value A.error_message).ok <;>
        cases hB : (db.updateCell B.table_id B.row_id B.column_id B.value B.error_message).ok
      · simp
      · simp
      · simp
      · simp only [if_true]
        exact put_comm db _ _ _ _ _ _ _ _ hne
    · unfold DataStore.call at *
      rw [rBA.2, rA.2]
    · unfold DataStore.call at *
      rw [rAB.2, rB.2]
  · intro t r c v₁ v₂ m₁ m₂
    have r₁ := updateCell_result db t r c v₁ m₁
    have r₂ := updateCell_result db t r c v₂ m₂
    have r₁₂ := updateCell_result (db.updateCell t r c v₁ m₁).store t r c v₂ m₂
    rw [firstFailure_updateCell] at r₁₂
    rw [updateCell_store_put (db.updateCell t r c v₁ m₁).store, r₁₂.1,
      updateCell_store_put db t r c v₁, updateCell_store_put db t r c v₂, r₁.1, r₂.1]
    cases (Spec.firstFailure db t r c).isNone
    · simp
    · simp only [if_true]
      exact put_put_same db t r c v₁ v₂

/-- Witness of C20 on the constructed store: a salary in `employees` and a quantity in
`inventory`, updated in either order. -/
theorem updateCell_order_independent_witness :
    ((DataStore.new.call ⟨"employees", "1", "salary", .double (.finite 600000), ""⟩).store.call
        ⟨"inventory", "101", "qty", .int 44, ""⟩).store =
      ((DataStore.new.call ⟨"inventory", "101", "qty", .int 44, ""⟩).store.call
        ⟨"employees", "1", "salary", .double (.finite 600000), ""⟩).store :=
  ((updateCell_order_independent DataStore.new).1
    ⟨"employees", "1", "salary", .double (.finite 600000), ""⟩
    ⟨"inventory", "101", "qty", .int 44, ""⟩ (Or.inl (by decide))).1

/-! ## Decoded values are fixed points of encode, then decode -/

theorem inInt32_wrapInt32 (n : Int) : inInt32 (wrapInt32 n) := by
  unfold inInt32 wrapInt32
  omega

theorem Double.toInt_inInt32 (d : Double) (i : Int) (h : d.toInt = some i) : inInt32 i := by
  cases d with
  | finite q =>
    unfold Double.toInt at h
    by_cases h0 : (0 : ℚ) ≤ q
    · simp only [h0, if_true] at h
      by_cases hr : inInt32 ⌊q⌋
      · rw [if_pos hr, Option.some.injEq] at h
        rw [← h]
        exact hr
      · rw [if_neg hr] at h
        exact absurd h (by simp)
    · simp only [h0, if_false] at h
      by_cases hr : inInt32 ⌈q⌉
      · rw [if_pos hr, Option.some.injEq] at h
        rw [← h]
        exact hr
      · rw [if_neg hr] at h
        exact absurd h (by simp)
  | inf s => simp [Double.toInt] at h
  | nan => simp [Double.toInt] at h

/-- Every Value that `parseJsonValueForColumn` returns fits the column. -/
theorem parseJson_fitsColumn (node : RValue) (c : ColumnDef) (m m' : String) (v : CellValue)
    (h : parseJsonValueForColumn node c m = .returned (some v) m') :
    CellValue.fitsColumn c.type v = true := by
  cases node with
  | null =>
    simp [parseJsonValueForColumn] at h
    rw [← h.1]
    cases c.type <;> rfl
  | boolean b =>
    cases ht : c.type <;> simp [parseJsonValueForColumn, ht] at h
    rw [← h.1]
    rfl
  | string s =>
    cases ht : c.type <;> simp [parseJsonValueForColumn, ht] at h
    rw [← h.1]
    rfl
  | list l => cases ht : c.type <;> simp [parseJsonValueForColumn, ht] at h
  | object o => cases ht : c.type <;> simp [parseJsonValueForColumn, ht] at h
  | number d =>
    cases ht : c.type
    · simp [parseJsonValueForColumn, ht] at h
    · simp only [parseJsonValueForColumn, ht, true_and] at h
      by_cases hf : (Double.floor d).eq d = true
      · simp only [hf, if_true] at h
        cases hi : d.toInt with
        | none => simp [hi] at h
        | some i =>
          simp only [hi, Decoded.returned.injEq, Option.some.injEq] at h
          rw [← h.1]
          simpa [CellValue.fitsColumn] using Double.toInt_inInt32 d i hi
      · simp only [hf] at h
        simp at h
        rw [← h.1]
        simp [CellValue.fitsColumn, hf]
    · simp [parseJsonValueForColumn, ht] at h
      rw [← h.1]
      rfl
    · simp [parseJsonValueForColumn, ht] at h

/-- Every Value that `parseProtoValueForColumn` returns fits the column. -/
theorem parseProto_fitsColumn (pv : ProtoValue) (c : ColumnDef) (m m' : String)
    (v : CellValue) (h : parseProtoValueForColumn pv c m = .returned (some v) m') :
    CellValue.fitsColumn c.type v = true := by
  cases pv with
  | null_value =>
    simp [parseProtoValueForColumn] at h
    rw [← h.1]
    cases c.type <;> rfl
  | string_value s =>
    cases ht : c.type <;> simp [parseProtoValueForColumn, ht] at h
    rw [← h.1]
    rfl
  | bool_value b =>
    cases ht : c.type <;> simp [parseProtoValueForColumn, ht] at h
    rw [← h.1]
    rfl
  | kind_not_set => simp [parseProtoValueForColumn] at h
  | int_value n =>
    cases ht : c.type <;> simp [parseProtoValueForColumn, ht] at h
    · rw [← h.1]
      simpa [CellValue.fitsColumn] using inInt32_wrapInt32 n
    · rw [← h.1]
      rfl
  | double_value d =>
    cases ht : c.type
    · simp [parseProtoValueForColumn, ht] at h
    · simp only [parseProtoValueForColumn, ht] at h
      by_cases hf : (Double.floor d).eq d = true
      · simp [hf] at h
        cases hi : d.toInt with
        | none => simp [hi] at h
        | some i =>
          simp only [hi, Decoded.returned.injEq, Option.some.injEq] at h
          rw [← h.1]
          simpa [CellValue.fitsColumn] using Double.toInt_inInt32 d i hi
      · simp [hf] at h
        rw [← h.1]
        simp [CellValue.fitsColumn, hf]
    · simp [parseProtoValueForColumn, ht] at h
      rw [← h.1]
      rfl
    · simp [parseProtoValueForColumn, ht] at h

/-- C22: a Value that a decode function returns for some wire input under a column is
a fixed point of encode-then-decode under that column, in both wire formats: encoding
it (`valueToJson`, `toProtoValue`) and decoding the result against the same column
succeeds and returns the same Value, with `error_message` left as it was. Hence a
second `updateCell` with the Value read back leaves the store as the first left it. -/
theorem decoded_values_are_fixed_points (c : ColumnDef) :
    (∀ (node : RValue) (m m' : String) (v : CellValue),
      parseJsonValueForColumn node c m = .returned (some v) m' →
      ∀ m₂ : String,
        parseJsonValueForColumn (valueToJson v).read c m₂ = .returned (some v) m₂) ∧
    (∀ (proto_value : ProtoValue) (m m' : String) (v : CellValue),
      parseProtoValueForColumn proto_value c m = .returned (some v) m' →
      ∀ m₂ : String,
        parseProtoValueForColumn (toProtoValue v) c m₂ = .returned (some v) m₂) ∧
    (∀ (db : DataStore) (table_id row_id : String) (v : CellValue) (m₁ m₂ : String),
      ((db.updateCell table_id row_id c.id v m₁).store.updateCell table_id row_id c.id v
        m₂).store = (db.updateCell table_id row_id c.id v m₁).store) := by
  refine ⟨?_, ?_, ?_⟩
  · intro node m m' v h m₂
    exact (roundTrip_of_fitsColumn v c m₂ (parseJson_fitsColumn node c m m' v h)).1
  · intro pv m m' v h m₂
    exact (roundTrip_of_fitsColumn v c m₂ (parseProto_fitsColumn pv c m m' v h)).2
  · intro db t r v m₁ m₂
    have r₁ := updateCell_result db t r c.id v m₁
    have r₁₂ := updateCell_result (db.updateCell t r c.id v m₁).store t r c.id v m₂
    rw [firstFailure_updateCell] at r₁₂
    rw [updateCell_store_put (db.updateCell t r c.id v m₁).store, r₁₂.1,
      updateCell_store_put db t r c.id v m₁, r₁.1]
    cases (Spec.firstFailure db t r c.id).isNone
    · simp
    · simp only [if_true]
      exact put_put_same db t r c.id v v

/-- Witness of C22: the JSON number 42 decoded against the Number column `qty` is the
integer 42, which is encoded and decoded to the integer 42 again. -/
theorem decoded_values_are_fixed_points_witness :
    parseJsonValueForColumn (.number (.finite 42)) qtyColumn "" = .returned (some (.int 42)) "" ∧
    parseJsonValueForColumn (valueToJson (.int 42)).read qtyColumn ""
      = .returned (some (.int 42)) "" :=
  ⟨by decide,
    (decoded_values_are_fixed_points qtyColumn).1 (.number (.finite 42)) "" "" (.int 42)
      (by decide) ""⟩

/-! ## The read path and the write path agree on editability -/

theorem find?_of_nodup_ids (l : List ColumnDef) (i : Nat) (c : ColumnDef)
    (hd : (l.map ColumnDef.id).Nodup) (hc : l[i]? = some c) :
    l.find? (fun x => decide (x.id = c.id)) = some c := by
  induction l generalizing i with
  | nil => simp at hc
  | cons a l ih =>
    simp only [List.map_cons, List.nodup_cons] at hd
    cases i with
    | zero =>
      simp only [List.getElem?_cons_zero, Option.some.injEq] at hc
      subst hc
      simp
    | succ i =>
      simp only [List.getElem?_cons_succ] at hc
      have hmem : c.id ∈ l.map ColumnDef.id :=
        List.mem_map.2 ⟨c, List.getElem?_mem hc, rfl⟩
      have hne : a.id ≠ c.id := fun heq => hd.1 (heq ▸ hmem)
      simp [List.find?, hne, ih i hd.2 hc]

/-- C21: for every table of a store whose column ids are distinct, every column of its
schema and every row id present in it, the `is editable` flag that `buildSchemaJson`
and `fillProtoSchema` expose for the column is the same boolean, and it is the result
of `updateCell` on that table, row and column for every value: the update succeeds
for every value if and only if the exposed flag is true. -/
theorem editability_read_write_agree (db : DataStore) (table_id : String) (table : Table)
    (i : Nat) (c : ColumnDef) (row_id : String)
    (hT : db.getTable table_id = some table)
    (hd : (table.schema.map ColumnDef.id).Nodup)
    (hc : table.schema[i]? = some c)
    (hr : ∃ r ∈ table.rows, r.id = row_id) :
    ∃ e : Bool,
      ((jsonColumns (buildSchemaJson table))[i]?).bind (fun w => w.member? "isEditable")
        = some (.boolean e) ∧
      ((fillProtoSchema table ProtoTableSchema.empty).columns[i]?).map ProtoColumn.is_editable
        = some e ∧
      (∀ (value : CellValue) (m : String),
        (db.updateCell table_id row_id c.id value m).ok = e) ∧
      ((∀ (value : CellValue) (m : String),
        (db.updateCell table_id row_id c.id value m).ok = true) ↔ e = true) := by
  have hfind := find?_of_nodup_ids table.schema i c hd hc
  have hany : table.schema.any (fun x => decide (x.id = c.id)) = true := by
    rw [← find?_isSome_eq_any, hfind]
    rfl
  have hrow : table.rows.any (fun r => decide (r.id = row_id)) = true := by
    obtain ⟨r, hr1, hr2⟩ := hr
    exact List.any_eq_true.2 ⟨r, hr1, by simp [hr2]⟩
  have hok : ∀ (value : CellValue) (m : String),
      (db.updateCell table_id row_id c.id value m).ok = (c.is_editable && !c.is_primary) := by
    intro value m
    rw [(updateCell_result db table_id row_id c.id value m).1]
    cases hp : c.is_primary <;> cases he : c.is_editable <;>
      simp [Spec.firstFailure, Spec.tableExists, Spec.columnExists, Spec.columnNotPrimary,
        Spec.columnEditable, Spec.rowExists, Spec.column, findColumn, hT, hfind, hany, hrow,
        hp, he]
  refine ⟨c.is_editable && !c.is_primary, ?_, ?_, hok, ?_⟩
  · rw [jsonColumns_buildSchemaJson]
    simp [hc, WValue.member?]
  · rw [fillProtoSchema_empty_columns]
    simp [hc]
  · constructor
    · intro h
      rw [← hok .null ""]
      exact h .null ""
    · intro h value m
      rw [hok value m, h]

/-- Witness of C21 on the constructed store: the column `salary` of `employees` (index
3 of the schema) is exposed as editable and can be updated in row `1`. -/
theorem editability_read_write_agree_witness :
    ∃ e : Bool,
      ((jsonColumns (buildSchemaJson seedEmployees))[3]?).bind
        (fun w => w.member? "isEditable") = some (.boolean e) ∧
      ((fillProtoSchema seedEmployees ProtoTableSchema.empty).columns[3]?).map
        ProtoColumn.is_editable = some e ∧
      (∀ (value : CellValue) (m : String),
        (DataStore.new.updateCell "employees" "1" salaryColumn.id value m).ok = e) ∧
      ((∀ (value : CellValue) (m : String),
        (DataStore.new.updateCell "employees" "1" salaryColumn.id value m).ok = true)
        ↔ e = true) :=
  editability_read_write_agree DataStore.new "employees" seedEmployees 3 salaryColumn "1"
    (by decide) (by decide) (by decide) (by decide)

/-- On the seed table `inventory` the two row encoders part ways. `GetData` emits the
row ids 100, 101, 102, 200, 201. None of the five records of `buildRowsJson` carries
its row id: under `sku` each holds the stored cell, while under `parent_sku` the
records still refer to the parents by the row ids `100` and `200`. -/
theorem inventory_records_lose_row_ids :
    (GetData DataStore.new ⟨"inventory"⟩ ⟨[]⟩).1 = Status.OK ∧
    (GetData DataStore.new ⟨"inventory"⟩ ⟨[]⟩).2.rows.map ProtoRow.id
      = ["100", "101", "102", "200", "201"] ∧
    (buildRowsJson seedInventory).items.map (fun record => record.member? "sku")
      = [some (.string "ELEC-001"), some (.string "CPU-INT-9"), some (.string "GPU-NV-40"),
          some (.string "FURN-001"), some (.string "CH-OFF-B")] ∧
    (buildRowsJson seedInventory).items.map (fun record => record.member? "parent_sku")
      = [some .null, some (.string "100"), some (.string "100"), some .null,
          some (.string "200")] :=
  ⟨by decide, by decide, rfl, rfl⟩

end GrpcMock
